import Mathlib

/-!
Verification development for the chat-log processing tools in `src/main.py`.

The program contains two pure table transforms:

* `process_data` (the spec's "ConversationBuilder"): concatenates the
  `Message_No_<n>` columns of a frame into a single "Conversation" column,
  inserted at the original position of the message column with the smallest
  numeric suffix.
* `transform_chat_responses` (the spec's "ResponseConsolidator"): collapses
  all rows sharing a `ChatID` into one row carrying `Actual` and `Expected`
  values extracted from the highest-numbered populated message column.

Modelling choices (a shallow embedding of the pandas code):

* A cell is `Option String`: `none` is the missing-value marker (pandas
  NaN / a failed `pd.notna` test); `some s` is a present value rendered as
  text (the code only ever applies `str(...)` and string concatenation to
  cell values, so text cells lose no generality for the properties below).
* A frame is an ordered column-name list plus a list of rows, each row a
  list of cells positionally aligned with the columns.
* Python's `re.match(r'Message_No_\d+', col)` anchors at the start only, so
  it is a prefix test; `\d` is modelled as an ASCII decimal digit.
* `int(x)` on the text after the last underscore is modelled by
  `parseIntSeg`: optional surrounding whitespace, an optional single sign,
  then a nonempty digit sequence; anything else is a `ValueError`, modelled
  as the `ChatErr.badIntLiteral` error.
* Python's stable `list.sort(key=...)` is modelled by a stable insertion
  sort (`sortAsc` / `sortDesc`); stability makes the result unique, so any
  stable sort is a faithful model.
* Python `dict`s (insertion ordered, insert-in-place on existing keys) are
  modelled by association lists with `dictInsert` / `dictFind`.
-/

/-- A cell of a tabular frame: `none` is the missing marker (pandas NaN). -/
abbrev Cell := Option String

/-- An in-memory tabular frame: ordered named columns and ordered rows.
Rows are positionally aligned with `cols`. -/
structure Frame where
  cols : List String
  rows : List (List Cell)
deriving DecidableEq

/-- A frame is well formed when every row has exactly one cell per column. -/
def Frame.WF (f : Frame) : Prop := ∀ r ∈ f.rows, r.length = f.cols.length

/-- Index of the first occurrence of a name in a column list
(pandas `df.columns.get_loc` for a unique label). -/
def idxOf? (c : String) : List String → Option Nat
  | [] => none
  | x :: xs => if x = c then some 0 else (idxOf? c xs).map (· + 1)

/-- The cell of `row` under column name `c` (pandas `row[c]`): the cell at
the first position whose column name is `c`, `none` when absent. -/
def cellAt (cols : List String) (row : List Cell) (c : String) : Cell :=
  match idxOf? c cols with
  | some i => (row.get? i).getD none
  | none => none

/-- Python `re.match(r'Message_No_\d+', col)`: anchored at the start only, so the
name must BEGIN with `Message_No_` followed by at least one digit; anything
may follow. -/
def isMessageCol (s : String) : Bool :=
  (s.data.take 11 == "Message_No_".data) &&
    (match s.data.drop 11 with
     | [] => false
     | c :: _ => c.isDigit)

/-- Python `str.strip()`: remove leading and trailing whitespace.
(Defined by structural recursion over the character list so that it
evaluates; `String.trim` itself is defined through substring loops.) -/
def pyStrip (s : String) : String :=
  ⟨((s.data.dropWhile Char.isWhitespace).reverse.dropWhile Char.isWhitespace).reverse⟩

/-- The text after the last `_` of a name: Python `s.split('_')[-1]`. -/
def lastSeg (s : String) : String :=
  ⟨(s.data.reverse.takeWhile (fun c => !(c == '_'))).reverse⟩

/-- Numeric value of a digit list, most significant first. -/
def digitsVal (l : List Char) : Nat :=
  l.foldl (fun a c => a * 10 + (c.toNat - 48)) 0

/-- Python `int(s)` on a segment containing no underscore: strip
whitespace, allow one optional sign, then a nonempty digit run; otherwise a
`ValueError` (`none`). -/
def parseIntSeg (s : String) : Option Int :=
  let l := (pyStrip s).data
  match l with
  | '-' :: rest =>
      if rest ≠ [] ∧ rest.all Char.isDigit then some (-(digitsVal rest : Int)) else none
  | '+' :: rest =>
      if rest ≠ [] ∧ rest.all Char.isDigit then some (digitsVal rest : Int) else none
  | _ =>
      if l ≠ [] ∧ l.all Char.isDigit then some (digitsVal l : Int) else none

/-- The sort key of a message column: `int(col.split('_')[-1])`. -/
def msgKey (s : String) : Option Int := parseIntSeg (lastSeg s)

/-- Errors the transforms can raise (all Python `ValueError`s; the first
two are the spec's `SchemaError`, the last the `int()` parse failure). -/
inductive ChatErr where
  | missingRequired
  | noMessageColumns
  | badIntLiteral (seg : String)
deriving DecidableEq

/-- Pair each message column with its integer sort key; the first
unparseable suffix raises, as Python `int` does inside `sort(key=...)`. -/
def keyCols : List String → Except ChatErr (List (String × Int))
  | [] => .ok []
  | c :: cs =>
    match msgKey c with
    | none => .error (.badIntLiteral (lastSeg c))
    | some k =>
      match keyCols cs with
      | .error e => .error e
      | .ok rest => .ok ((c, k) :: rest)

/-- Stable insertion (ascending by key): an element goes before the first
element whose key is not smaller, so original order is kept among equal
keys, as Python's stable sort does. -/
def insAsc (x : String × Int) : List (String × Int) → List (String × Int)
  | [] => [x]
  | y :: ys => if y.2 < x.2 then y :: insAsc x ys else x :: y :: ys

/-- Stable ascending sort by key: `cols.sort(key=...)`. -/
def sortAsc : List (String × Int) → List (String × Int)
  | [] => []
  | x :: xs => insAsc x (sortAsc xs)

/-- Stable insertion (descending by key). -/
def insDesc (x : String × Int) : List (String × Int) → List (String × Int)
  | [] => [x]
  | y :: ys => if x.2 < y.2 then y :: insDesc x ys else x :: y :: ys

/-- Stable descending sort by key: `cols.sort(key=..., reverse=True)`. -/
def sortDesc : List (String × Int) → List (String × Int)
  | [] => []
  | x :: xs => insDesc x (sortDesc xs)

/-- The element with the smallest key, earliest original position among
ties (what `sorted[0]` yields for a stable ascending sort). -/
def argminFirst : List (String × Int) → Option (String × Int)
  | [] => none
  | x :: xs =>
    match argminFirst xs with
    | none => some x
    | some m => if m.2 < x.2 then some m else some x

/-- The element with the largest key, earliest original position among
ties (what a descending stable sort puts first). -/
def argmaxFirst : List (String × Int) → Option (String × Int)
  | [] => none
  | x :: xs =>
    match argmaxFirst xs with
    | none => some x
    | some m => if x.2 < m.2 then some m else some x

/-- The role tag of a message column with numeric key `k`:
`"Bot: "` for odd keys, `"User: "` for even ones, then the raw value. -/
def rolePart (k : Int) (v : String) : String :=
  (if k % 2 = 1 then "Bot: " else "User: ") ++ v

/-- One row's conversation text: walk the keyed message columns in the
given order, keep cells that are present and non-blank after trimming,
tag each with its role, and join with newlines (`'\n'.join(convo_parts)`). -/
def rowConvo (cols : List String) (keyed : List (String × Int)) (row : List Cell) : String :=
  let parts := keyed.filterMap (fun ck =>
    match cellAt cols row ck.1 with
    | none => none
    | some v => if pyStrip v = "" then none else some (rolePart ck.2 v))
  String.intercalate "\n" parts

/-- Pandas `new_df[name] = vals`: overwrite an existing column in place, else
append a new last column. -/
def assignNewCol (f : Frame) (name : String) (vals : List Cell) : Frame :=
  match idxOf? name f.cols with
  | some i => { cols := f.cols, rows := f.rows.zipWith (fun r v => r.set i v) vals }
  | none => { cols := f.cols ++ [name], rows := f.rows.zipWith (fun r v => r ++ [v]) vals }

/-- Pandas `df[names]`: select columns by name, in the order given (duplicated
names duplicate the column). -/
def selectCols (f : Frame) (names : List String) : Frame :=
  { cols := names, rows := f.rows.map (fun r => names.map (cellAt f.cols r)) }

/-- The function `process_data(df)` from `src/main.py` (the spec's ConversationBuilder):
find the `Message_No_` columns, sort them ascending by integer suffix,
build each row's conversation text, and splice a "Conversation" column in
at the original position of the lowest-suffix message column. -/
def process_data (df : Frame) : Except ChatErr (Frame × Bool) :=
  let messageCols := df.cols.filter (fun c => isMessageCol c)
  if messageCols.isEmpty then .ok (df, false)
  else
    match keyCols messageCols with
    | .error e => .error e
    | .ok keyed =>
      let sorted := sortAsc keyed
      let conversations := df.rows.map (fun r => rowConvo df.cols sorted r)
      let firstMessageCol := (sorted.headD ("", 0)).1
      let insertPosition := (idxOf? firstMessageCol df.cols).getD 0
      let newColumns :=
        df.cols.take insertPosition ++ ["Conversation"] ++ df.cols.drop insertPosition
      let newDf := assignNewCol df "Conversation" (conversations.map some)
      .ok (selectCols newDf newColumns, true)

/-- The two response slots the output reads back (`chat_responses[id]`
is a dict initialised to `{'Actual': None, 'Expected': None}`; other
response kinds are stored under other keys and never read, so they are
dropped here). -/
structure ChatResp where
  actual : Cell
  expected : Cell
deriving DecidableEq

/-- Look a key up in an insertion-ordered association list (Python
`d[k]` / `k in d`). -/
def dictFind {α β : Type} [DecidableEq α] : List (α × β) → α → Option β
  | [], _ => none
  | p :: ps, k => if p.1 = k then some p.2 else dictFind ps k

/-- Python `d[k] = v`: replace in place when the key exists, else append. -/
def dictInsert {α β : Type} [DecidableEq α] : List (α × β) → α → β → List (α × β)
  | [], k, v => [(k, v)]
  | p :: ps, k, v => if p.1 = k then (k, v) :: ps else p :: dictInsert ps k v

/-- Python `chat_responses[chat_id][response_type] = v` for the two kinds the
output reads; any other kind leaves both read slots untouched. -/
def updateResp (r : ChatResp) (kind : Cell) (v : String) : ChatResp :=
  if kind = some "Actual" then { r with actual := some v }
  else if kind = some "Expected" then { r with expected := some v }
  else r

/-- Does this cell pass `pd.notna(x) and str(x).strip()`? -/
def cellQualifies (cols : List String) (row : List Cell) (name : String) : Bool :=
  match cellAt cols row name with
  | none => false
  | some v => if pyStrip v = "" then false else true

/-- The row's effective message value: the first keyed column in the given
(descending) order whose cell is present and non-blank; its raw cell. -/
def effMessage (cols : List String) (keyed : List (String × Int)) (row : List Cell) :
    Option String :=
  match keyed.find? (fun ck => cellQualifies cols row ck.1) with
  | none => none
  | some ck => cellAt cols row ck.1

/-- The snapshot dict `{col: row[col] for col in columns_to_keep}`. -/
def snapDict (keep cols : List String) (row : List Cell) : List (String × Cell) :=
  keep.foldl (fun d c => dictInsert d c (cellAt cols row c)) []

/-- The accumulator of the row loop of `transform_chat_responses`:
`chat_row_data` and `chat_responses`, keyed by the `ChatID` cell. -/
structure TState where
  rowData : List (Cell × List (String × Cell))
  resp : List (Cell × ChatResp)
deriving DecidableEq

/-- One iteration of `for _, row in df.iterrows()`: snapshot the row's
kept columns on the id's first occurrence, initialise the response slots,
and store the effective message value under the row's response kind. -/
def stepRow (keep cols : List String) (keyed : List (String × Int))
    (st : TState) (row : List Cell) : TState :=
  let chatId := cellAt cols row "ChatID"
  let kind := cellAt cols row "ActualOrExpected"
  let rowData :=
    match dictFind st.rowData chatId with
    | some _ => st.rowData
    | none => dictInsert st.rowData chatId (snapDict keep cols row)
  let resp :=
    match dictFind st.resp chatId with
    | some _ => st.resp
    | none => dictInsert st.resp chatId ⟨none, none⟩
  let resp :=
    match effMessage cols keyed row with
    | none => resp
    | some v =>
      match dictFind resp chatId with
      | some r => dictInsert resp chatId (updateResp r kind v)
      | none => resp
  { rowData := rowData, resp := resp }

/-- Pandas `pd.DataFrame(result_data)` over a list of row dicts: columns are the
keys in order of first appearance across the dicts; a dict lacking a
column yields the missing marker. An empty list yields an empty frame
with no columns. -/
def frameOfDicts (dicts : List (List (String × Cell))) : Frame :=
  let cols := dicts.foldl
    (fun acc d => d.foldl (fun a p => if p.1 ∈ a then a else a ++ [p.1]) acc) []
  { cols := cols, rows := dicts.map (fun d => cols.map (fun c => (dictFind d c).getD none)) }

/-- The output rows: for each chat id in first-appearance order, the
snapshot dict with `Actual` then `Expected` written into it. -/
def buildOutput (st : TState) : Frame :=
  frameOfDicts (st.rowData.map (fun p =>
    let r := (dictFind st.resp p.1).getD ⟨none, none⟩
    dictInsert (dictInsert p.2 "Actual" r.actual) "Expected" r.expected))

/-- The function `transform_chat_responses(df)` from `src/main.py` (the spec's
ResponseConsolidator): check the required columns and the message
columns, sort the message columns descending by suffix, fold the row
loop over the input rows, and build one output row per chat id. -/
def transform_chat_responses (df : Frame) : Except ChatErr Frame :=
  if "ChatID" ∈ df.cols ∧ "ActualOrExpected" ∈ df.cols then
    let messageCols := df.cols.filter (fun c => isMessageCol c)
    if messageCols.isEmpty then .error .noMessageColumns
    else
      match keyCols messageCols with
      | .error e => .error e
      | .ok keyed =>
        let sorted := sortDesc keyed
        let keep := df.cols.filter (fun c => !(c == "ActualOrExpected"))
        let final := df.rows.foldl (stepRow keep df.cols sorted) ⟨[], []⟩
        .ok (buildOutput final)
  else .error .missingRequired

/-! ### Definitions written from the spec's words, for comparison -/

/-- Spec-side characterisation of the names the code's classifier accepts:
the name begins with `Message_No_` followed by a digit (case-sensitive),
with arbitrary text allowed afterwards. -/
def msgNameSpec (s : String) : Prop :=
  ∃ c cs, s.data = "Message_No_".data ++ c :: cs ∧ c.isDigit = true

/-- The claim's exact-form classifier: the whole name is `Message_No_`
followed by a nonempty non-negative base-10 digit sequence and nothing
else. -/
def specExactMessageName (s : String) : Bool :=
  (s.data.take 11 == "Message_No_".data) &&
    (!(s.data.drop 11).isEmpty) && (s.data.drop 11).all Char.isDigit

/-- Role name of a message column with key `k`, per the spec: odd is Bot,
even is User. -/
def roleOf (k : Int) : String := if k % 2 = 1 then "Bot" else "User"

/-- Spec-side conversation text of one row: each message column in
ascending key order whose cell is present and non-blank after trimming
contributes `<Role>: <raw value>`; the lines are joined by newlines. -/
def convoSpec (cols : List String) (keyed : List (String × Int)) (row : List Cell) : String :=
  String.intercalate "\n"
    ((sortAsc keyed).filterMap (fun ck =>
      (cellAt cols row ck.1).bind (fun v =>
        if pyStrip v = "" then none else some (roleOf ck.2 ++ ": " ++ v))))

/-- Spec-side effective message value of a row: the raw cell of the
qualifying message column with the highest key (earliest original
position among equal keys); absent when no cell qualifies. -/
def specEffMessage (cols : List String) (keyed : List (String × Int)) (row : List Cell) :
    Option String :=
  match argmaxFirst (keyed.filter (fun ck => cellQualifies cols row ck.1)) with
  | none => none
  | some ck => cellAt cols row ck.1

/-- First-occurrence deduplication, by an accumulating pass. -/
def firstDedupAux {α : Type} [DecidableEq α] (acc : List α) : List α → List α
  | [] => acc
  | x :: xs => firstDedupAux (if x ∈ acc then acc else acc ++ [x]) xs

/-- The distinct elements of a list, in order of first appearance. -/
def firstDedup {α : Type} [DecidableEq α] (l : List α) : List α := firstDedupAux [] l

/-- The chat id of a row (the `ChatID` cell). -/
def idOfRow (cols : List String) (row : List Cell) : Cell := cellAt cols row "ChatID"

/-- The response kind of a row (the `ActualOrExpected` cell). -/
def kindOfRow (cols : List String) (row : List Cell) : Cell :=
  cellAt cols row "ActualOrExpected"

/-- The first row carrying a given chat id. -/
def firstRowFor (cols : List String) (rows : List (List Cell)) (id : Cell) :
    Option (List Cell) :=
  rows.find? (fun r => idOfRow cols r == id)

/-- Spec-side "last seen wins" lookup: the effective value (computed by
`eff`) of the last row whose chat id is `id`, whose response kind is the
given label, and whose effective value is present; `none` when no such
row exists. -/
def lastEffWith (cols : List String) (eff : List Cell → Option String)
    (rows : List (List Cell)) (id : Cell) (kind : String) : Option String :=
  match rows with
  | [] => none
  | r :: rs =>
    match lastEffWith cols eff rs id kind with
    | some v => some v
    | none =>
      if idOfRow cols r = id ∧ kindOfRow cols r = some kind then eff r else none

/-- Descending sortedness by key. -/
def SortedDesc (l : List (String × Int)) : Prop :=
  l.Pairwise (fun a b => b.2 ≤ a.2)

/-- Invariant of the row loop of `transform_chat_responses` after
processing the prefix `pre` of the input rows: `chat_row_data` holds, in
first-appearance order, the snapshot of the first row of each chat id
seen so far, and `chat_responses` holds the last-seen effective value per
(id, kind). -/
def TInv (keep cols : List String) (sorted : List (String × Int))
    (pre : List (List Cell)) (st : TState) : Prop :=
  (st.rowData.map Prod.fst = firstDedup (pre.map (idOfRow cols))) ∧
  (∀ id, dictFind st.rowData id = (firstRowFor cols pre id).map (snapDict keep cols)) ∧
  (∀ id, dictFind st.resp id =
    if id ∈ pre.map (idOfRow cols) then
      some ⟨lastEffWith cols (effMessage cols sorted) pre id "Actual",
            lastEffWith cols (effMessage cols sorted) pre id "Expected"⟩
    else none)

/-- The spec's description of ResponseConsolidator's output (§4.2): one
row per distinct chat id in order of first appearance, carrying the
base-snapshot of the first row seen for that id over the kept columns
(original order, minus the response-kind field), plus the appended
response cells populated from the last-seen effective value per kind
(absent → missing marker). -/
def consolidateSpec (df : Frame) (keyed : List (String × Int)) : Frame :=
  let keep := df.cols.filter (fun c => !(c == "ActualOrExpected"))
  let distinct := firstDedup (df.rows.map (idOfRow df.cols))
  { cols := if df.rows.isEmpty then [] else keep ++ ["Actual", "Expected"],
    rows := distinct.map (fun id =>
      keep.map (cellAt df.cols ((firstRowFor df.cols df.rows id).getD [])) ++
        [lastEffWith df.cols (specEffMessage df.cols keyed) df.rows id "Actual",
         lastEffWith df.cols (specEffMessage df.cols keyed) df.rows id "Expected"]) }


/-! ### Claim C8: the message-column classifier -/

/-- C8 (amended): the classifier used by both transforms accepts exactly
the names that begin with `Message_No_` followed by a digit (text may
follow the digits), and in particular never accepts "Conversation". -/
theorem messageColClassifierRule :
    (∀ s, isMessageCol s = true ↔ msgNameSpec s) ∧
      isMessageCol "Conversation" = false := by
  constructor
  · intro s
    constructor
    · intro h
      unfold isMessageCol at h
      rw [Bool.and_eq_true] at h
      obtain ⟨h1, h2⟩ := h
      have e : s.data.take 11 = "Message_No_".data := by
        simpa using h1
      cases hd : s.data.drop 11 with
      | nil => rw [hd] at h2; simp at h2
      | cons c cs =>
        refine ⟨c, cs, ?_, ?_⟩
        · conv_lhs => rw [← List.take_append_drop 11 s.data]
          rw [e, hd]
        · rw [hd] at h2; exact h2
    · rintro ⟨c, cs, he, hc⟩
      have hlen : ("Message_No_".data).length = 11 := by decide
      unfold isMessageCol
      rw [Bool.and_eq_true]
      constructor
      · rw [he, ← hlen, List.take_left]
        simp
      · rw [he, ← hlen, List.drop_left]
        exact hc
  · decide

/-- C8 counterexample: `Message_No_1x` has extra text after the integer,
yet the code classifies it as a message column, refuting the exact-form
claim. -/
theorem messageCol_extra_text_counterexample :
    isMessageCol "Message_No_1x" = true ∧
      specExactMessageName "Message_No_1x" = false := by
  constructor <;> decide

/-! ### Basic lemmas about lookups, dictionaries and deduplication -/

theorem idxOf?_eq_none_iff {c : String} {l : List String} :
    idxOf? c l = none ↔ c ∉ l := by
  induction l with
  | nil => simp [idxOf?]
  | cons x xs ih =>
    by_cases hx : x = c
    · subst hx; simp [idxOf?]
    · simp [idxOf?, hx, ih, Ne.symm hx]

theorem idxOf?_bound {c : String} {l : List String} {i : Nat}
    (h : idxOf? c l = some i) : i < l.length := by
  induction l generalizing i with
  | nil => simp [idxOf?] at h
  | cons x xs ih =>
    by_cases hx : x = c
    · subst hx
      simp [idxOf?] at h
      simp [← h]
    · simp [idxOf?, hx] at h
      obtain ⟨j, hj, rfl⟩ := h
      simpa using Nat.succ_lt_succ (ih hj)

theorem idxOf?_get? {c : String} {l : List String} {i : Nat}
    (h : idxOf? c l = some i) : l.get? i = some c := by
  induction l generalizing i with
  | nil => simp [idxOf?] at h
  | cons x xs ih =>
    by_cases hx : x = c
    · subst hx
      simp [idxOf?] at h
      simp [← h]
    · simp [idxOf?, hx] at h
      obtain ⟨j, hj, rfl⟩ := h
      simpa using ih hj

theorem idxOf?_append_left {c : String} {l l' : List String} {i : Nat}
    (h : idxOf? c l = some i) : idxOf? c (l ++ l') = some i := by
  induction l generalizing i with
  | nil => simp [idxOf?] at h
  | cons x xs ih =>
    by_cases hx : x = c
    · subst hx
      simp [idxOf?] at h
      simp [List.cons_append, idxOf?, ← h]
    · simp [idxOf?, hx] at h
      obtain ⟨j, hj, rfl⟩ := h
      show idxOf? c (x :: (xs ++ l')) = some (j + 1)
      simp only [idxOf?, if_neg hx]
      rw [ih hj]
      rfl

theorem idxOf?_append_of_not_mem {c : String} {l l' : List String}
    (h : c ∉ l) : idxOf? c (l ++ l') = (idxOf? c l').map (· + l.length) := by
  induction l with
  | nil => simp
  | cons x xs ih =>
    have hx : x ≠ c := fun e => h (e ▸ List.mem_cons_self x xs)
    have hm : c ∉ xs := fun e => h (List.mem_cons_of_mem x e)
    rw [List.cons_append]
    show (if x = c then some 0 else (idxOf? c (xs ++ l')).map (· + 1)) = _
    rw [if_neg hx, ih hm]
    cases idxOf? c l' with
    | none => rfl
    | some j =>
      simp only [Option.map_some', List.length_cons, Nat.add_assoc]

theorem idxOf?_of_nodup_get? {l : List String} {i : Nat} {c : String}
    (hnd : l.Nodup) (hg : l.get? i = some c) : idxOf? c l = some i := by
  induction l generalizing i with
  | nil => simp at hg
  | cons x xs ih =>
    cases i with
    | zero =>
      rw [List.get?_cons_zero] at hg
      injection hg with hg
      subst hg
      simp [idxOf?]
    | succ j =>
      rw [List.get?_cons_succ] at hg
      have hx : x ≠ c := by
        intro e
        subst e
        exact (List.nodup_cons.mp hnd).1 (List.get?_mem hg)
      simp [idxOf?, hx, ih (List.nodup_cons.mp hnd).2 hg]

theorem cellAt_of_idx {cols : List String} {row : List Cell} {c : String} {i : Nat}
    (h : idxOf? c cols = some i) : cellAt cols row c = (row.get? i).getD none := by
  simp [cellAt, h]

theorem map_cellAt_self {cols : List String} {row : List Cell}
    (hnd : cols.Nodup) (hlen : row.length = cols.length) :
    cols.map (cellAt cols row) = row := by
  have key : ∀ i : Nat, i < cols.length → ∀ c, cols.get? i = some c →
      cellAt cols row c = (row.get? i).getD none := by
    intro i hi c hc
    exact cellAt_of_idx (idxOf?_of_nodup_get? hnd hc)
  apply List.ext_get?
  intro i
  rcases Nat.lt_or_ge i cols.length with hi | hi
  · have hc : ∃ c, cols.get? i = some c := by
      rw [List.get?_eq_get hi]; exact ⟨_, rfl⟩
    obtain ⟨c, hc⟩ := hc
    rw [List.get?_map, hc]
    simp only [Option.map_some']
    rw [key i hi c hc]
    have : i < row.length := by omega
    rw [List.get?_eq_get this]
    rfl
  · rw [List.get?_map]
    have h1 : cols.get? i = none := List.get?_eq_none.mpr hi
    have h2 : row.get? i = none := List.get?_eq_none.mpr (by omega)
    rw [h1, h2]
    rfl

theorem dictFind_insert {α β : Type} [DecidableEq α] (d : List (α × β)) (k k' : α) (v : β) :
    dictFind (dictInsert d k v) k' = if k' = k then some v else dictFind d k' := by
  induction d with
  | nil =>
    by_cases h : k' = k
    · subst h; simp [dictInsert, dictFind]
    · simp [dictInsert, dictFind, h, Ne.symm h]
  | cons p ps ih =>
    by_cases hp : p.1 = k
    · subst hp
      by_cases h : k' = p.1
      · subst h; simp [dictInsert, dictFind]
      · simp [dictInsert, dictFind, h, Ne.symm h]
    · by_cases h : k' = k
      · subst h
        simp [dictInsert, dictFind, hp, ih, Ne.symm hp]
      · by_cases hq : p.1 = k'
        · simp [dictInsert, dictFind, hp, hq, ih, h]
        · simp [dictInsert, dictFind, hp, hq, ih, h]

theorem dictFind_isSome_iff {α β : Type} [DecidableEq α] (d : List (α × β)) (k : α) :
    (dictFind d k).isSome ↔ k ∈ d.map Prod.fst := by
  induction d with
  | nil => simp [dictFind]
  | cons p ps ih =>
    by_cases hp : p.1 = k
    · simp [dictFind, hp]
    · simp only [dictFind, if_neg hp, List.map_cons, List.mem_cons, ih]
      constructor
      · intro h; exact Or.inr h
      · rintro (h | h)
        · exact absurd h.symm hp
        · exact h

theorem dictInsert_keys {α β : Type} [DecidableEq α] (d : List (α × β)) (k : α) (v : β) :
    (dictInsert d k v).map Prod.fst =
      if k ∈ d.map Prod.fst then d.map Prod.fst else d.map Prod.fst ++ [k] := by
  induction d with
  | nil => simp [dictInsert]
  | cons p ps ih =>
    by_cases hp : p.1 = k
    · simp [dictInsert, hp]
    · have hpk : (k = p.1) = False := by
        simp only [eq_iff_iff, iff_false]
        exact fun e => hp e.symm
      simp only [dictInsert, if_neg hp, List.map_cons, ih, List.mem_cons, hpk, false_or]
      by_cases hm : k ∈ ps.map Prod.fst
      · simp [hm]
      · simp [hm]

theorem dictInsert_of_not_mem {α β : Type} [DecidableEq α] {d : List (α × β)} {k : α}
    (h : k ∉ d.map Prod.fst) (v : β) : dictInsert d k v = d ++ [(k, v)] := by
  induction d with
  | nil => simp [dictInsert]
  | cons p ps ih =>
    have hp : p.1 ≠ k := by
      intro e
      apply h
      simp [e]
    have hm : k ∉ ps.map Prod.fst := by
      intro e
      apply h
      simp [e]
    simp only [dictInsert, if_neg hp, List.cons_append]
    rw [ih hm]

theorem dictFind_of_mem_nodup {α β : Type} [DecidableEq α] {d : List (α × β)} {p : α × β}
    (hnd : (d.map Prod.fst).Nodup) (hm : p ∈ d) : dictFind d p.1 = some p.2 := by
  induction d with
  | nil => simp at hm
  | cons q qs ih =>
    have hnd' : q.1 ∉ qs.map Prod.fst ∧ (qs.map Prod.fst).Nodup := by
      rw [List.map_cons] at hnd
      exact List.nodup_cons.mp hnd
    rcases List.mem_cons.mp hm with h | h
    · subst h
      simp [dictFind]
    · have hq : q.1 ≠ p.1 := by
        intro e
        apply hnd'.1
        rw [e]
        exact List.mem_map_of_mem Prod.fst h
      simp only [dictFind, if_neg hq]
      exact ih hnd'.2 h

theorem assoc_eq_map_keys {α β : Type} [DecidableEq α] (d : List (α × β)) (w : β)
    (hnd : (d.map Prod.fst).Nodup) :
    d = (d.map Prod.fst).map (fun k => (k, (dictFind d k).getD w)) := by
  induction d with
  | nil => simp
  | cons p ps ih =>
    have hnd' : p.1 ∉ ps.map Prod.fst ∧ (ps.map Prod.fst).Nodup := by
      rw [List.map_cons] at hnd
      exact List.nodup_cons.mp hnd
    simp only [List.map_cons]
    have h0 : dictFind (p :: ps) p.1 = some p.2 := by simp [dictFind]
    rw [h0]
    simp only [Option.getD_some]
    congr 1
    conv_lhs => rw [ih hnd'.2]
    apply List.map_congr_left
    intro k hk
    have hkp : p.1 ≠ k := by
      intro e
      apply hnd'.1
      rw [e]
      exact hk
    have hfind : dictFind (p :: ps) k = dictFind ps k := by
      simp [dictFind, hkp]
    rw [hfind]

theorem firstDedupAux_append {α : Type} [DecidableEq α] (acc : List α) (l₁ l₂ : List α) :
    firstDedupAux acc (l₁ ++ l₂) = firstDedupAux (firstDedupAux acc l₁) l₂ := by
  induction l₁ generalizing acc with
  | nil => simp [firstDedupAux]
  | cons x xs ih => simp [firstDedupAux, ih]

theorem mem_firstDedupAux {α : Type} [DecidableEq α] {acc l : List α} {x : α} :
    x ∈ firstDedupAux acc l ↔ x ∈ acc ∨ x ∈ l := by
  induction l generalizing acc with
  | nil => simp [firstDedupAux]
  | cons y ys ih =>
    by_cases hy : y ∈ acc
    · simp only [firstDedupAux, if_pos hy, ih, List.mem_cons]
      constructor
      · rintro (h | h)
        · exact Or.inl h
        · exact Or.inr (Or.inr h)
      · rintro (h | h | h)
        · exact Or.inl h
        · exact Or.inl (h ▸ hy)
        · exact Or.inr h
    · simp only [firstDedupAux, if_neg hy, ih, List.mem_append, List.mem_cons,
        List.mem_singleton]
      tauto

theorem mem_firstDedup {α : Type} [DecidableEq α] {l : List α} {x : α} :
    x ∈ firstDedup l ↔ x ∈ l := by
  simp [firstDedup, mem_firstDedupAux]

theorem firstDedup_snoc {α : Type} [DecidableEq α] (l : List α) (x : α) :
    firstDedup (l ++ [x]) =
      if x ∈ firstDedup l then firstDedup l else firstDedup l ++ [x] := by
  rw [firstDedup, firstDedupAux_append]
  rfl

theorem nodup_firstDedupAux {α : Type} [DecidableEq α] {acc l : List α}
    (h : acc.Nodup) : (firstDedupAux acc l).Nodup := by
  induction l generalizing acc with
  | nil => exact h
  | cons y ys ih =>
    by_cases hy : y ∈ acc
    · simpa [firstDedupAux, if_pos hy] using ih h
    · refine ih ?_
      simp [List.nodup_append, h, hy]

theorem nodup_firstDedup {α : Type} [DecidableEq α] (l : List α) :
    (firstDedup l).Nodup := nodup_firstDedupAux List.nodup_nil

theorem firstDedupAux_of_nodup {α : Type} [DecidableEq α] {acc l : List α}
    (hnd : l.Nodup) (hdis : ∀ x ∈ l, x ∉ acc) : firstDedupAux acc l = acc ++ l := by
  induction l generalizing acc with
  | nil => simp [firstDedupAux]
  | cons y ys ih =>
    have hy : y ∉ acc := hdis y (List.mem_cons_self y ys)
    have hnd' := List.nodup_cons.mp hnd
    rw [firstDedupAux, if_neg hy, ih hnd'.2]
    · simp
    · intro x hx
      simp only [List.mem_append, List.mem_singleton]
      rintro (h | h)
      · exact hdis x (List.mem_cons_of_mem y hx) h
      · exact hnd'.1 (h ▸ hx)

theorem firstDedup_of_nodup {α : Type} [DecidableEq α] {l : List α} (hnd : l.Nodup) :
    firstDedup l = l := by
  rw [firstDedup, firstDedupAux_of_nodup hnd (by simp)]
  simp

theorem firstDedupAux_of_all_mem {α : Type} [DecidableEq α] {acc l : List α}
    (h : ∀ x ∈ l, x ∈ acc) : firstDedupAux acc l = acc := by
  induction l with
  | nil => rfl
  | cons y ys ih =>
    rw [firstDedupAux, if_pos (h y (List.mem_cons_self y ys))]
    exact ih (fun x hx => h x (List.mem_cons_of_mem y hx))

theorem firstDedup_ne_nil {α : Type} [DecidableEq α] {x : α} {l : List α} :
    firstDedup (x :: l) ≠ [] := by
  intro h
  have : x ∈ firstDedup (x :: l) := mem_firstDedup.mpr (List.mem_cons_self x l)
  rw [h] at this
  exact List.not_mem_nil x this

theorem keyCols_ok_map_fst {l : List String} {ks : List (String × Int)}
    (h : keyCols l = .ok ks) : ks.map Prod.fst = l := by
  induction l generalizing ks with
  | nil =>
    simp only [keyCols] at h
    injection h with h
    subst h
    rfl
  | cons c cs ih =>
    simp only [keyCols] at h
    cases hk : msgKey c with
    | none => rw [hk] at h; exact absurd h (by simp)
    | some k =>
      rw [hk] at h
      cases hr : keyCols cs with
      | error e => rw [hr] at h; exact absurd h (by simp)
      | ok rest =>
        rw [hr] at h
        injection h with h
        subst h
        simp [ih hr]

theorem keyCols_ok_key {l : List String} {ks : List (String × Int)}
    (h : keyCols l = .ok ks) : ∀ p ∈ ks, msgKey p.1 = some p.2 := by
  induction l generalizing ks with
  | nil =>
    simp only [keyCols] at h
    injection h with h
    subst h
    simp
  | cons c cs ih =>
    simp only [keyCols] at h
    cases hk : msgKey c with
    | none => rw [hk] at h; exact absurd h (by simp)
    | some k =>
      rw [hk] at h
      cases hr : keyCols cs with
      | error e => rw [hr] at h; exact absurd h (by simp)
      | ok rest =>
        rw [hr] at h
        injection h with h
        subst h
        intro p hp
        rcases List.mem_cons.mp hp with hh | hh
        · subst hh; exact hk
        · exact ih hr p hh

theorem keyCols_isOk_iff (l : List String) :
    (∃ ks, keyCols l = .ok ks) ↔ ∀ c ∈ l, (msgKey c).isSome := by
  induction l with
  | nil => simp [keyCols]
  | cons c cs ih =>
    simp only [keyCols]
    cases hk : msgKey c with
    | none =>
      simp only [List.mem_cons]
      constructor
      · rintro ⟨ks, hks⟩; exact absurd hks (by simp)
      · intro h
        have := h c (Or.inl rfl)
        rw [hk] at this
        simp at this
    | some k =>
      cases hr : keyCols cs with
      | error e =>
        simp only [List.mem_cons]
        constructor
        · rintro ⟨ks, hks⟩; exact absurd hks (by simp)
        · intro h
          have : ∃ ks, keyCols cs = .ok ks := ih.mpr (fun x hx => h x (Or.inr hx))
          rw [hr] at this
          obtain ⟨ks, hks⟩ := this
          exact absurd hks (by simp)
      | ok rest =>
        simp only [List.mem_cons]
        constructor
        · intro _ x hx
          rcases hx with hh | hh
          · subst hh; simp [hk]
          · exact ih.mp ⟨rest, hr⟩ x hh
        · intro _
          exact ⟨(c, k) :: rest, rfl⟩

theorem keyCols_error_shape {l : List String} {e : ChatErr}
    (h : keyCols l = .error e) : ∃ s, e = .badIntLiteral s := by
  induction l generalizing e with
  | nil => simp [keyCols] at h
  | cons c cs ih =>
    simp only [keyCols] at h
    cases hk : msgKey c with
    | none =>
      rw [hk] at h
      injection h with h
      exact ⟨lastSeg c, h.symm⟩
    | some k =>
      rw [hk] at h
      cases hr : keyCols cs with
      | error e' =>
        rw [hr] at h
        injection h with h
        subst h
        exact ih hr
      | ok rest => rw [hr] at h; exact absurd h (by simp)

/-! ### Lemmas about the stable sorts -/

theorem sortAsc_head? (l : List (String × Int)) : (sortAsc l).head? = argminFirst l := by
  induction l with
  | nil => rfl
  | cons x xs ih =>
    simp only [sortAsc, argminFirst]
    cases hs : sortAsc xs with
    | nil =>
      rw [hs] at ih
      rw [← ih]
      simp [insAsc]
    | cons y ys =>
      rw [hs] at ih
      rw [← ih]
      simp only [List.head?_cons]
      by_cases hy : y.2 < x.2
      · simp [insAsc, hy]
      · simp [insAsc, hy]

theorem sortDesc_head? (l : List (String × Int)) : (sortDesc l).head? = argmaxFirst l := by
  induction l with
  | nil => rfl
  | cons x xs ih =>
    simp only [sortDesc, argmaxFirst]
    cases hs : sortDesc xs with
    | nil =>
      rw [hs] at ih
      rw [← ih]
      simp [insDesc]
    | cons y ys =>
      rw [hs] at ih
      rw [← ih]
      simp only [List.head?_cons]
      by_cases hy : x.2 < y.2
      · simp [insDesc, hy]
      · simp [insDesc, hy]

theorem argminFirst_mem {l : List (String × Int)} {m : String × Int}
    (h : argminFirst l = some m) : m ∈ l := by
  induction l generalizing m with
  | nil => simp [argminFirst] at h
  | cons x xs ih =>
    simp only [argminFirst] at h
    cases ha : argminFirst xs with
    | none =>
      rw [ha] at h
      injection h with h
      exact h ▸ List.mem_cons_self x xs
    | some m' =>
      rw [ha] at h
      replace h : (if m'.2 < x.2 then some m' else some x) = some m := h
      by_cases hm : m'.2 < x.2
      · rw [if_pos hm] at h
        injection h with h
        exact List.mem_cons_of_mem x (h ▸ ih ha)
      · rw [if_neg hm] at h
        injection h with h
        exact h ▸ List.mem_cons_self x xs

theorem argminFirst_isSome {l : List (String × Int)} (h : l ≠ []) :
    ∃ m, argminFirst l = some m := by
  cases l with
  | nil => exact absurd rfl h
  | cons x xs =>
    simp only [argminFirst]
    cases argminFirst xs with
    | none => exact ⟨x, rfl⟩
    | some m' =>
      by_cases hm : m'.2 < x.2
      · exact ⟨m', by show (if m'.2 < x.2 then some m' else some x) = _; rw [if_pos hm]⟩
      · exact ⟨x, by show (if m'.2 < x.2 then some m' else some x) = _; rw [if_neg hm]⟩

theorem sortAsc_length (l : List (String × Int)) : (sortAsc l).length = l.length := by
  have hins : ∀ (x : String × Int) (s : List (String × Int)),
      (insAsc x s).length = s.length + 1 := by
    intro x s
    induction s with
    | nil => rfl
    | cons y ys ih =>
      simp only [insAsc]
      by_cases hy : y.2 < x.2
      · simp [hy, ih]
      · simp [hy]
  induction l with
  | nil => rfl
  | cons x xs ih => simp [sortAsc, hins, ih]

theorem mem_insDesc {w x : String × Int} {s : List (String × Int)}
    (hw : w ∈ insDesc x s) : w = x ∨ w ∈ s := by
  induction s with
  | nil =>
    simp [insDesc] at hw
    exact Or.inl hw
  | cons u us ih =>
    simp only [insDesc] at hw
    by_cases hu : x.2 < u.2
    · rw [if_pos hu] at hw
      rcases List.mem_cons.mp hw with h | h
      · exact Or.inr (h ▸ List.mem_cons_self u us)
      · rcases ih h with h' | h'
        · exact Or.inl h'
        · exact Or.inr (List.mem_cons_of_mem u h')
    · rw [if_neg hu] at hw
      rcases List.mem_cons.mp hw with h | h
      · exact Or.inl h
      · exact Or.inr h

theorem insDesc_sortedDesc {x : String × Int} {s : List (String × Int)}
    (hs : SortedDesc s) : SortedDesc (insDesc x s) := by
  induction s with
  | nil =>
    simp [insDesc, SortedDesc]
  | cons y ys ih =>
    have hy := List.pairwise_cons.mp hs
    by_cases hxy : x.2 < y.2
    · simp only [insDesc, if_pos hxy]
      rw [SortedDesc, List.pairwise_cons]
      constructor
      · intro z hz
        rcases mem_insDesc hz with h | h
        · exact h ▸ le_of_lt hxy
        · exact hy.1 z h
      · exact ih hy.2
    · simp only [insDesc, if_neg hxy]
      rw [SortedDesc, List.pairwise_cons]
      constructor
      · intro z hz
        rcases List.mem_cons.mp hz with h | h
        · exact h ▸ le_of_not_lt hxy
        · exact le_trans (hy.1 z h) (le_of_not_lt hxy)
      · exact hs

theorem sortDesc_sortedDesc (l : List (String × Int)) : SortedDesc (sortDesc l) := by
  induction l with
  | nil => simp [sortDesc, SortedDesc]
  | cons x xs ih => exact insDesc_sortedDesc ih

theorem insDesc_eq_cons_of_le {x : String × Int} {s : List (String × Int)}
    (h : ∀ z ∈ s, z.2 ≤ x.2) : insDesc x s = x :: s := by
  cases s with
  | nil => rfl
  | cons z zs =>
    have : ¬ x.2 < z.2 := not_lt_of_le (h z (List.mem_cons_self z zs))
    simp [insDesc, this]

theorem filter_insDesc (p : String × Int → Bool) {x : String × Int}
    {s : List (String × Int)} (hs : SortedDesc s) :
    (insDesc x s).filter p =
      if p x then insDesc x (s.filter p) else s.filter p := by
  induction s with
  | nil =>
    by_cases hp : p x <;> simp [insDesc, List.filter, hp]
  | cons y ys ih =>
    have hy := List.pairwise_cons.mp hs
    by_cases hxy : x.2 < y.2
    · simp only [insDesc, if_pos hxy]
      have e1 : List.filter p (y :: insDesc x ys) =
          if p y then y :: List.filter p (insDesc x ys) else List.filter p (insDesc x ys) := by
        by_cases hpy : p y <;> simp [List.filter_cons, hpy]
      rw [e1, ih hy.2]
      by_cases hpy : p y
      · by_cases hpx : p x
        · simp only [if_pos hpy, if_pos hpx, List.filter_cons, hpy]
          simp only [if_true]
          rw [show insDesc x (y :: List.filter p ys) = y :: insDesc x (List.filter p ys) by
            simp [insDesc, hxy]]
        · simp [hpy, hpx, List.filter_cons]
      · by_cases hpx : p x
        · simp [hpy, hpx, List.filter_cons]
        · simp [hpy, hpx, List.filter_cons]
    · simp only [insDesc, if_neg hxy]
      by_cases hpx : p x
      · have e1 : List.filter p (x :: y :: ys) = x :: List.filter p (y :: ys) := by
          simp [List.filter_cons, hpx]
        rw [e1, if_pos hpx, insDesc_eq_cons_of_le]
        intro z hz
        have hz' : z ∈ y :: ys := List.mem_of_mem_filter hz
        rcases List.mem_cons.mp hz' with h | h
        · exact h ▸ le_of_not_lt hxy
        · exact le_trans (hy.1 z h) (le_of_not_lt hxy)
      · simp [List.filter_cons, hpx]

theorem filter_sortDesc (p : String × Int → Bool) (l : List (String × Int)) :
    (sortDesc l).filter p = sortDesc (l.filter p) := by
  induction l with
  | nil => rfl
  | cons x xs ih =>
    simp only [sortDesc]
    rw [filter_insDesc p (sortDesc_sortedDesc xs), ih]
    by_cases hp : p x
    · rw [if_pos hp, show List.filter p (x :: xs) = x :: List.filter p xs by
        simp [List.filter_cons, hp]]
      rfl
    · rw [if_neg hp, show List.filter p (x :: xs) = List.filter p xs by
        simp [List.filter_cons, hp]]

theorem find?_eq_head?_filter (p : String × Int → Bool) (l : List (String × Int)) :
    l.find? p = (l.filter p).head? := by
  induction l with
  | nil => rfl
  | cons x xs ih =>
    by_cases hp : p x
    · rw [List.find?_cons_of_pos _ hp, show List.filter p (x :: xs) = x :: List.filter p xs by
        simp [List.filter_cons, hp]]
      rfl
    · rw [List.find?_cons_of_neg _ hp, show List.filter p (x :: xs) = List.filter p xs by
        simp [List.filter_cons, hp], ih]

theorem effMessage_eq_spec (cols : List String) (keyed : List (String × Int))
    (row : List Cell) :
    effMessage cols (sortDesc keyed) row = specEffMessage cols keyed row := by
  unfold effMessage specEffMessage
  rw [find?_eq_head?_filter, filter_sortDesc, sortDesc_head?]

/-! ### Structure of a successful `process_data` run -/

theorem process_data_unfold (df : Frame) {m : String} {ms : List String}
    {keyed : List (String × Int)} {mk : String × Int} {p : Nat}
    (hm : df.cols.filter (fun c => isMessageCol c) = m :: ms)
    (hk : keyCols (m :: ms) = .ok keyed)
    (hmin : argminFirst keyed = some mk)
    (hp : idxOf? mk.1 df.cols = some p) :
    process_data df =
      .ok (selectCols
            (assignNewCol df "Conversation"
              ((df.rows.map (fun r => rowConvo df.cols (sortAsc keyed) r)).map some))
            (df.cols.take p ++ ["Conversation"] ++ df.cols.drop p), true) := by
  have hhead : (sortAsc keyed).headD ("", 0) = mk := by
    rw [List.headD_eq_head?_getD, sortAsc_head?, hmin]
    rfl
  unfold process_data
  rw [hm]
  simp only [List.isEmpty_cons, Bool.false_eq_true, if_false, hk, hhead, hp]
  rfl

theorem idxOf?_isSome_of_mem {c : String} {l : List String} (h : c ∈ l) :
    ∃ i, idxOf? c l = some i := by
  cases hi : idxOf? c l with
  | none => exact absurd (idxOf?_eq_none_iff.mp hi) (by simpa using h)
  | some i => exact ⟨i, rfl⟩

theorem cellAt_append_sentinel {cols : List String} {r : List Cell} {w : Cell}
    {e : String} {y : String} (hy : y ∈ cols) (hlen : r.length = cols.length) :
    cellAt (cols ++ [e]) (r ++ [w]) y = cellAt cols r y := by
  obtain ⟨i, hi⟩ := idxOf?_isSome_of_mem hy
  have hib := idxOf?_bound hi
  rw [cellAt, idxOf?_append_left hi, cellAt, hi]
  show ((r ++ [w]).get? i).getD none = (r.get? i).getD none
  rw [List.get?_append (by omega)]

theorem select_spliced {cols : List String} {r : List Cell} {w : Cell} {p : Nat}
    (hnd : cols.Nodup) (hlen : r.length = cols.length)
    (hconv : "Conversation" ∉ cols) :
    (cols.take p ++ ["Conversation"] ++ cols.drop p).map
        (cellAt (cols ++ ["Conversation"]) (r ++ [w])) =
      r.take p ++ w :: r.drop p := by
  rw [List.map_append, List.map_append]
  have hmem : ∀ y ∈ cols, cellAt (cols ++ ["Conversation"]) (r ++ [w]) y = cellAt cols r y :=
    fun y hy => cellAt_append_sentinel hy hlen
  have htake : (cols.take p).map (cellAt (cols ++ ["Conversation"]) (r ++ [w])) = r.take p := by
    rw [List.map_congr_left (fun y hy => hmem y (List.take_subset p cols hy))]
    rw [List.map_take, map_cellAt_self hnd hlen]
  have hdrop : (cols.drop p).map (cellAt (cols ++ ["Conversation"]) (r ++ [w])) = r.drop p := by
    rw [List.map_congr_left (fun y hy => hmem y (List.drop_subset p cols hy))]
    rw [List.map_drop, map_cellAt_self hnd hlen]
  have hmid : cellAt (cols ++ ["Conversation"]) (r ++ [w]) "Conversation" = w := by
    rw [cellAt, idxOf?_append_of_not_mem hconv]
    have h1 : idxOf? "Conversation" ["Conversation"] = some 0 := by simp [idxOf?]
    rw [h1]
    simp only [Option.map_some']
    rw [List.get?_append_right (by omega)]
    simp [hlen]
  rw [htake, hdrop]
  simp [hmid]

theorem process_data_spec (df : Frame) {m : String} {ms : List String}
    {keyed : List (String × Int)} {mk : String × Int} {p : Nat}
    (hnd : df.cols.Nodup) (hwf : df.WF) (hconv : "Conversation" ∉ df.cols)
    (hm : df.cols.filter (fun c => isMessageCol c) = m :: ms)
    (hk : keyCols (m :: ms) = .ok keyed)
    (hmin : argminFirst keyed = some mk)
    (hp : idxOf? mk.1 df.cols = some p) :
    process_data df =
      .ok (⟨df.cols.take p ++ "Conversation" :: df.cols.drop p,
        df.rows.map (fun r =>
          r.take p ++ some (rowConvo df.cols (sortAsc keyed) r) :: r.drop p)⟩, true) := by
  rw [process_data_unfold df hm hk hmin hp]
  have hnone : idxOf? "Conversation" df.cols = none := idxOf?_eq_none_iff.mpr hconv
  have hassign : assignNewCol df "Conversation"
      ((df.rows.map (fun r => rowConvo df.cols (sortAsc keyed) r)).map some) =
      ⟨df.cols ++ ["Conversation"],
        df.rows.map (fun r => r ++ [some (rowConvo df.cols (sortAsc keyed) r)])⟩ := by
    simp only [assignNewCol, hnone, List.map_map, List.zipWith_map_right, List.zipWith_same]
    rfl
  rw [hassign, selectCols]
  have hrows : (df.rows.map (fun r => r ++ [some (rowConvo df.cols (sortAsc keyed) r)])).map
      (fun r' => (df.cols.take p ++ ["Conversation"] ++ df.cols.drop p).map
        (cellAt (df.cols ++ ["Conversation"]) r')) =
      df.rows.map (fun r => r.take p ++ some (rowConvo df.cols (sortAsc keyed) r) :: r.drop p) := by
    rw [List.map_map]
    apply List.map_congr_left
    intro r hr
    exact @select_spliced df.cols r (some (rowConvo df.cols (sortAsc keyed) r)) p
      hnd (hwf r hr) hconv
  rw [hrows, List.append_assoc]
  rfl

theorem forall₂_map_right {α β : Type} {P : α → β → Prop} {l : List α} {f : α → β}
    (h : ∀ a ∈ l, P a (f a)) : List.Forall₂ P l (l.map f) := by
  induction l with
  | nil => exact List.Forall₂.nil
  | cons x xs ih =>
    exact List.Forall₂.cons (h x (List.mem_cons_self x xs))
      (ih (fun a ha => h a (List.mem_cons_of_mem x ha)))

/-- C1 (amended): when a frame has message columns (whose suffixes all
parse), distinct column names and no pre-existing "Conversation" column,
`process_data` inserts the single new "Conversation" column immediately
before the original position of the message column with the SMALLEST
integer suffix (first among ties) — position chosen by numeric suffix,
not by original column order — every other column keeps its order and
values, and the output has exactly one more column than the input. -/
theorem conversation_insert_position (df : Frame) {m : String} {ms : List String}
    {keyed : List (String × Int)} {mk : String × Int} {p : Nat}
    (hnd : df.cols.Nodup) (hwf : df.WF) (hconv : "Conversation" ∉ df.cols)
    (hm : df.cols.filter (fun c => isMessageCol c) = m :: ms)
    (hk : keyCols (m :: ms) = .ok keyed)
    (hmin : argminFirst keyed = some mk)
    (hp : idxOf? mk.1 df.cols = some p) :
    ∃ g, process_data df = .ok (g, true) ∧
      g.cols = df.cols.take p ++ "Conversation" :: df.cols.drop p ∧
      g.cols.length = df.cols.length + 1 ∧
      List.Forall₂ (fun r r' => r'.take p = r.take p ∧ r'.drop (p + 1) = r.drop p)
        df.rows g.rows := by
  have hple : p < df.cols.length := idxOf?_bound hp
  refine ⟨_, process_data_spec df hnd hwf hconv hm hk hmin hp, rfl, ?_, ?_⟩
  · simp only [List.length_append, List.length_cons, List.length_take, List.length_drop]
    omega
  · apply forall₂_map_right
    intro r hr
    have hlen : (r.take p).length = p := by
      rw [List.length_take]
      have := hwf r hr
      omega
    constructor
    · rw [List.take_append_eq_append_take, hlen, List.take_take]
      simp [Nat.min_self]
    · rw [List.drop_append_eq_append_drop, hlen]
      rw [List.drop_eq_nil_of_le (by omega : (r.take p).length ≤ p + 1)]
      simp

/-- C1 counterexample: with columns `[Message_No_2, Message_No_1]` the
first pattern-matching column in original order sits at position 0, yet
the code inserts "Conversation" at position 1 (before `Message_No_1`,
the smallest numeric suffix), refuting the original-column-position rule. -/
theorem conversation_insert_position_counterexample :
    process_data ⟨["Message_No_2", "Message_No_1"], [[some "a", some "b"]]⟩ =
      .ok (⟨["Message_No_2", "Conversation", "Message_No_1"],
        [[some "a", some "Bot: b\nUser: a", some "b"]]⟩, true) ∧
    isMessageCol "Message_No_2" = true ∧
    idxOf? "Conversation" ["Message_No_2", "Conversation", "Message_No_1"] = some 1 := by
  refine ⟨rfl, rfl, by decide⟩

theorem conversation_insert_position_witness :
    ∃ g, process_data ⟨["A", "Message_No_1"], [[some "x", some "hi"]]⟩ = .ok (g, true) ∧
      g.cols = ["A", "Message_No_1"].take 1 ++ "Conversation" :: ["A", "Message_No_1"].drop 1 ∧
      g.cols.length = (["A", "Message_No_1"] : List String).length + 1 ∧
      List.Forall₂ (fun r r' => r'.take 1 = r.take 1 ∧ r'.drop 2 = r.drop 1)
        [[some "x", some "hi"]] g.rows :=
  @conversation_insert_position ⟨["A", "Message_No_1"], [[some "x", some "hi"]]⟩
    "Message_No_1" [] [("Message_No_1", 1)] ("Message_No_1", 1) 1
    (by decide)
    (by intro r hr; rw [List.mem_singleton] at hr; subst hr; rfl)
    (by decide)
    (by rfl) (by rfl) (by rfl) (by rfl)

/-! ### Claim C2: behaviour of a second pass -/

theorem process_data_ok_true_inv {df g : Frame}
    (h : process_data df = .ok (g, true)) :
    ∃ m ms keyed, df.cols.filter (fun c => isMessageCol c) = m :: ms ∧
      keyCols (m :: ms) = .ok keyed ∧
      ∃ p, g.cols = df.cols.take p ++ ["Conversation"] ++ df.cols.drop p := by
  unfold process_data at h
  cases hfil : df.cols.filter (fun c => isMessageCol c) with
  | nil =>
    rw [hfil] at h
    simp at h
  | cons m ms =>
    rw [hfil] at h
    simp only [List.isEmpty_cons, Bool.false_eq_true, if_false] at h
    cases hkc : keyCols (m :: ms) with
    | error e =>
      rw [hkc] at h
      exact absurd h (by simp)
    | ok keyed =>
      rw [hkc] at h
      refine ⟨m, ms, keyed, rfl, hkc, ?_⟩
      injection h with h
      rw [Prod.mk.injEq] at h
      refine ⟨(idxOf? ((sortAsc keyed).headD ("", 0)).1 df.cols).getD 0, ?_⟩
      rw [← h.1]
      rfl

theorem process_data_ok_of (df : Frame) {m : String} {ms : List String}
    {keyed : List (String × Int)}
    (hm : df.cols.filter (fun c => isMessageCol c) = m :: ms)
    (hk : keyCols (m :: ms) = .ok keyed) :
    ∃ g, process_data df = .ok (g, true) ∧ g.cols.length = df.cols.length + 1 := by
  unfold process_data
  rw [hm]
  simp only [List.isEmpty_cons, Bool.false_eq_true, if_false, hk]
  refine ⟨_, rfl, ?_⟩
  show (df.cols.take _ ++ ["Conversation"] ++ df.cols.drop _).length = df.cols.length + 1
  simp only [List.length_append, List.length_take, List.length_drop, List.length_cons,
    List.length_nil]
  omega

/-- C2 (amended): `process_data` is NOT idempotent on frames it
transforms: its output still contains every message column, so a second
pass re-detects them and splices in a second (duplicate) "Conversation"
column, giving a frame with one more column than the first output —
never a byte-for-byte identical frame. -/
theorem process_data_not_idempotent {df g : Frame}
    (h : process_data df = .ok (g, true)) :
    ∃ h2, process_data g = .ok (h2, true) ∧
      h2.cols.length = g.cols.length + 1 ∧ h2 ≠ g := by
  obtain ⟨m, ms, keyed, hfil, hkc, p, hcols⟩ := process_data_ok_true_inv h
  have hfil2 : g.cols.filter (fun c => isMessageCol c) = m :: ms := by
    rw [hcols, List.filter_append, List.filter_append]
    rw [show List.filter (fun c => isMessageCol c) ["Conversation"] = [] from rfl]
    rw [List.append_nil, ← List.filter_append, List.take_append_drop, hfil]
  obtain ⟨h2, hok, hlen⟩ := process_data_ok_of g hfil2 hkc
  refine ⟨h2, hok, hlen, ?_⟩
  intro he
  rw [he] at hlen
  omega

/-- C2 counterexample: a second pass over the output of a first pass adds
a duplicate "Conversation" column instead of leaving the frame
byte-for-byte identical. -/
theorem process_data_second_pass_counterexample :
    process_data ⟨["Message_No_1"], [[some "hi"]]⟩ =
      .ok (⟨["Conversation", "Message_No_1"], [[some "Bot: hi", some "hi"]]⟩, true) ∧
    process_data ⟨["Conversation", "Message_No_1"], [[some "Bot: hi", some "hi"]]⟩ =
      .ok (⟨["Conversation", "Conversation", "Message_No_1"],
        [[some "Bot: hi", some "Bot: hi", some "hi"]]⟩, true) ∧
    (⟨["Conversation", "Conversation", "Message_No_1"],
        [[some "Bot: hi", some "Bot: hi", some "hi"]]⟩ : Frame) ≠
      ⟨["Conversation", "Message_No_1"], [[some "Bot: hi", some "hi"]]⟩ :=
  ⟨rfl, rfl, by decide⟩

theorem process_data_not_idempotent_witness :
    ∃ h2, process_data ⟨["Conversation", "Message_No_1"], [[some "Bot: hi", some "hi"]]⟩ =
        .ok (h2, true) ∧
      h2.cols.length =
        (⟨["Conversation", "Message_No_1"],
          [[some "Bot: hi", some "hi"]]⟩ : Frame).cols.length + 1 ∧
      h2 ≠ ⟨["Conversation", "Message_No_1"], [[some "Bot: hi", some "hi"]]⟩ :=
  @process_data_not_idempotent ⟨["Message_No_1"], [[some "hi"]]⟩
    ⟨["Conversation", "Message_No_1"], [[some "Bot: hi", some "hi"]]⟩ rfl

/-! ### Claims C6 and C9: the content of the Conversation cells -/

theorem rolePart_eq_roleOf (k : Int) (v : String) :
    rolePart k v = roleOf k ++ ": " ++ v := by
  unfold rolePart roleOf
  by_cases h : k % 2 = 1
  · rw [if_pos h, if_pos h]
    rw [show ("Bot" ++ ": " : String) = "Bot: " from by decide]
  · rw [if_neg h, if_neg h]
    rw [show ("User" ++ ": " : String) = "User: " from by decide]

theorem rowConvo_eq_convoSpec (cols : List String) (keyed : List (String × Int))
    (row : List Cell) :
    rowConvo cols (sortAsc keyed) row = convoSpec cols keyed row := by
  simp only [rowConvo, convoSpec]
  congr 1
  apply List.filterMap_congr
  intro ck _
  cases cellAt cols row ck.1 with
  | none => rfl
  | some v =>
    show (if pyStrip v = "" then none else some (rolePart ck.2 v)) =
      (if pyStrip v = "" then none else some (roleOf ck.2 ++ ": " ++ v))
    by_cases hv : pyStrip v = ""
    · rw [if_pos hv, if_pos hv]
    · rw [if_neg hv, if_neg hv, rolePart_eq_roleOf]

/-- C6: for every row of a frame accepted by `process_data` (distinct
columns, no pre-existing "Conversation"), the new "Conversation" cell is
exactly the newline-joined, suffix-ascending concatenation of
`<Role>: <raw value>` over the message columns whose cells are present
and non-blank after trimming — blank or missing cells skipped entirely,
and a row with no qualifying cells yielding the empty string (an empty
join). -/
theorem conversation_cell_formula (df : Frame) {m : String} {ms : List String}
    {keyed : List (String × Int)} {mk : String × Int} {p : Nat}
    (hnd : df.cols.Nodup) (hwf : df.WF) (hconv : "Conversation" ∉ df.cols)
    (hm : df.cols.filter (fun c => isMessageCol c) = m :: ms)
    (hk : keyCols (m :: ms) = .ok keyed)
    (hmin : argminFirst keyed = some mk)
    (hp : idxOf? mk.1 df.cols = some p) :
    ∃ g, process_data df = .ok (g, true) ∧
      List.Forall₂ (fun r r' =>
          cellAt g.cols r' "Conversation" = some (convoSpec df.cols keyed r))
        df.rows g.rows := by
  refine ⟨_, process_data_spec df hnd hwf hconv hm hk hmin hp, ?_⟩
  apply forall₂_map_right
  intro r hr
  have hple : p < df.cols.length := idxOf?_bound hp
  have htl : (df.cols.take p).length = p := by
    rw [List.length_take]
    omega
  have hidx : idxOf? "Conversation"
      (df.cols.take p ++ "Conversation" :: df.cols.drop p) = some p := by
    rw [idxOf?_append_of_not_mem (fun hmem => hconv (List.take_subset p df.cols hmem))]
    rw [show idxOf? "Conversation" ("Conversation" :: df.cols.drop p) = some 0 from by
      simp [idxOf?]]
    simp [htl]
  rw [cellAt, hidx]
  have hrl : (r.take p).length = p := by
    rw [List.length_take]
    have := hwf r hr
    omega
  show ((r.take p ++ some (rowConvo df.cols (sortAsc keyed) r) :: r.drop p).get? p).getD
      none = some (convoSpec df.cols keyed r)
  rw [List.get?_append_right (by omega), hrl]
  simp [rowConvo_eq_convoSpec]

theorem conversation_cell_formula_witness :
    (∃ g, process_data ⟨["Message_No_1", "Message_No_2"], [[some "hi", some "hello"]]⟩ =
        .ok (g, true) ∧
      List.Forall₂ (fun r r' =>
          cellAt g.cols r' "Conversation" =
            some (convoSpec ["Message_No_1", "Message_No_2"]
              [("Message_No_1", 1), ("Message_No_2", 2)] r))
        [[some "hi", some "hello"]] g.rows) ∧
    convoSpec ["Message_No_1", "Message_No_2"] [("Message_No_1", 1), ("Message_No_2", 2)]
      [some "hi", some "hello"] = "Bot: hi\nUser: hello" :=
  ⟨@conversation_cell_formula ⟨["Message_No_1", "Message_No_2"], [[some "hi", some "hello"]]⟩
    "Message_No_1" ["Message_No_2"] [("Message_No_1", 1), ("Message_No_2", 2)]
    ("Message_No_1", 1) 0
    (by decide)
    (by intro r hr; rw [List.mem_singleton] at hr; subst hr; rfl)
    (by decide)
    (by rfl) (by rfl) (by rfl) (by rfl), by decide⟩

/-- C9: when the input already contains a "Conversation" column (and at
least one message column), `process_data` overwrites that column's cells
with the new transcript and the output's column list contains the name
"Conversation" twice — once at the computed insertion position and once
at the original position — with every "Conversation"-named cell holding
the newly computed transcript, so the original values are gone. -/
theorem conversation_overwrites_existing (df : Frame) {m : String} {ms : List String}
    {keyed : List (String × Int)} {mk : String × Int} {p j : Nat}
    (hnd : df.cols.Nodup) (hwf : df.WF)
    (hm : df.cols.filter (fun c => isMessageCol c) = m :: ms)
    (hk : keyCols (m :: ms) = .ok keyed)
    (hmin : argminFirst keyed = some mk)
    (hp : idxOf? mk.1 df.cols = some p)
    (hj : idxOf? "Conversation" df.cols = some j) :
    ∃ g, process_data df = .ok (g, true) ∧
      g.cols.count "Conversation" = 2 ∧
      g.cols.length = df.cols.length + 1 ∧
      List.Forall₂ (fun r r' => ∀ i, g.cols.get? i = some "Conversation" →
          r'.get? i = some (some (convoSpec df.cols keyed r))) df.rows g.rows := by
  rw [process_data_unfold df hm hk hmin hp]
  have hconv : "Conversation" ∈ df.cols := by
    by_contra hc
    rw [idxOf?_eq_none_iff.mpr hc] at hj
    exact absurd hj (by simp)
  have hjb : j < df.cols.length := idxOf?_bound hj
  have hrows : assignNewCol df "Conversation"
      ((df.rows.map (fun r => rowConvo df.cols (sortAsc keyed) r)).map some) =
      ⟨df.cols,
        df.rows.map (fun r => r.set j (some (rowConvo df.cols (sortAsc keyed) r)))⟩ := by
    simp only [assignNewCol, hj, List.map_map, List.zipWith_map_right, List.zipWith_same]
    rfl
  rw [hrows, selectCols]
  refine ⟨_, rfl, ?_, ?_, ?_⟩
  · show (df.cols.take p ++ ["Conversation"] ++ df.cols.drop p).count "Conversation" = 2
    rw [List.count_append, List.count_append]
    have h1 : (df.cols.take p).count "Conversation" + (df.cols.drop p).count "Conversation"
        = df.cols.count "Conversation" := by
      rw [← List.count_append, List.take_append_drop]
    have h2 : df.cols.count "Conversation" = 1 := List.count_eq_one_of_mem hnd hconv
    have h3 : (["Conversation"] : List String).count "Conversation" = 1 := by decide
    rw [h3]
    omega
  · show (df.cols.take p ++ ["Conversation"] ++ df.cols.drop p).length = df.cols.length + 1
    have := idxOf?_bound hp
    simp only [List.length_append, List.length_take, List.length_drop, List.length_cons,
      List.length_nil]
    omega
  · show List.Forall₂ (fun r r' => ∀ i,
        (df.cols.take p ++ ["Conversation"] ++ df.cols.drop p).get? i = some "Conversation" →
          r'.get? i = some (some (convoSpec df.cols keyed r)))
      df.rows
      ((df.rows.map (fun r => r.set j (some (rowConvo df.cols (sortAsc keyed) r)))).map
        (fun r' => (df.cols.take p ++ ["Conversation"] ++ df.cols.drop p).map
          (cellAt df.cols r')))
    rw [List.map_map]
    apply forall₂_map_right
    intro r hr i hi
    show (((df.cols.take p ++ ["Conversation"] ++ df.cols.drop p).map
        (cellAt df.cols (r.set j (some (rowConvo df.cols (sortAsc keyed) r))))).get? i) =
      some (some (convoSpec df.cols keyed r))
    rw [List.get?_map, hi]
    simp only [Option.map_some']
    have hjr : j < r.length := by
      have := hwf r hr
      omega
    have hcell : cellAt df.cols (r.set j (some (rowConvo df.cols (sortAsc keyed) r)))
        "Conversation" = some (rowConvo df.cols (sortAsc keyed) r) := by
      rw [cellAt, hj]
      show ((r.set j (some (rowConvo df.cols (sortAsc keyed) r))).get? j).getD none = _
      rw [List.get?_eq_getElem?, List.getElem?_set_self', List.getElem?_eq_getElem hjr]
      rfl
    rw [hcell, rowConvo_eq_convoSpec]

theorem conversation_overwrites_existing_witness :
    ∃ g, process_data ⟨["Conversation", "Message_No_1"], [[some "old", some "hi"]]⟩ =
        .ok (g, true) ∧
      g.cols.count "Conversation" = 2 ∧
      g.cols.length = (["Conversation", "Message_No_1"] : List String).length + 1 ∧
      List.Forall₂ (fun r r' => ∀ i, g.cols.get? i = some "Conversation" →
          r'.get? i = some (some (convoSpec ["Conversation", "Message_No_1"]
            [("Message_No_1", 1)] r)))
        [[some "old", some "hi"]] g.rows :=
  @conversation_overwrites_existing
    ⟨["Conversation", "Message_No_1"], [[some "old", some "hi"]]⟩
    "Message_No_1" [] [("Message_No_1", 1)] ("Message_No_1", 1) 1 0
    (by decide)
    (by intro r hr; rw [List.mem_singleton] at hr; subst hr; rfl)
    (by rfl) (by rfl) (by rfl) (by rfl) (by rfl)

/-! ### Invariant of the consolidation row loop -/

theorem lastEffWith_eq_none_of_not_mem {cols : List String}
    {eff : List Cell → Option String} {rows : List (List Cell)} {id : Cell} {k : String}
    (h : id ∉ rows.map (idOfRow cols)) : lastEffWith cols eff rows id k = none := by
  induction rows with
  | nil => rfl
  | cons r rs ih =>
    have h1 : idOfRow cols r ≠ id := by
      intro e
      exact h (by simp [e])
    have h2 : id ∉ rs.map (idOfRow cols) := by
      intro e
      exact h (by simp [e])
    rw [lastEffWith, ih h2]
    rw [if_neg (fun hc => h1 hc.1)]

theorem lastEffWith_snoc (cols : List String) (eff : List Cell → Option String)
    (pre : List (List Cell)) (r : List Cell) (id : Cell) (k : String) :
    lastEffWith cols eff (pre ++ [r]) id k =
      match (if idOfRow cols r = id ∧ kindOfRow cols r = some k then eff r else none) with
      | some v => some v
      | none => lastEffWith cols eff pre id k := by
  induction pre with
  | nil =>
    show lastEffWith cols eff [r] id k = _
    rw [lastEffWith, lastEffWith]
    cases hc : (if idOfRow cols r = id ∧ kindOfRow cols r = some k then eff r else none) with
    | none => rfl
    | some v => rfl
  | cons x xs ih =>
    show lastEffWith cols eff (x :: (xs ++ [r])) id k = _
    rw [lastEffWith, ih]
    cases hc : (if idOfRow cols r = id ∧ kindOfRow cols r = some k then eff r else none) with
    | none => rw [lastEffWith]
    | some v => rfl

theorem firstRowFor_snoc (cols : List String) (pre : List (List Cell)) (r : List Cell)
    (id : Cell) :
    firstRowFor cols (pre ++ [r]) id =
      match firstRowFor cols pre id with
      | some r0 => some r0
      | none => if idOfRow cols r = id then some r else none := by
  induction pre with
  | nil =>
    show List.find? (fun r' => idOfRow cols r' == id) [r] = _
    by_cases h : idOfRow cols r = id
    · rw [List.find?_cons_of_pos _ (by simp [h]), if_pos h]
      rfl
    · rw [List.find?_cons_of_neg _ (by simp [h]), if_neg h]
      rfl
  | cons x xs ih =>
    by_cases hx : idOfRow cols x = id
    · show List.find? (fun r' => idOfRow cols r' == id) (x :: (xs ++ [r])) = _
      rw [List.find?_cons_of_pos _ (by simp [hx])]
      rw [show firstRowFor cols (x :: xs) id = some x from by
        rw [firstRowFor, List.find?_cons_of_pos _ (by simp [hx])]]
    · show List.find? (fun r' => idOfRow cols r' == id) (x :: (xs ++ [r])) = _
      rw [List.find?_cons_of_neg _ (by simp [hx])]
      rw [show firstRowFor cols (x :: xs) id = firstRowFor cols xs id from by
        rw [firstRowFor, List.find?_cons_of_neg _ (by simp [hx])]
        rfl]
      exact ih

theorem firstRowFor_eq_none_of_not_mem {cols : List String} {rows : List (List Cell)}
    {id : Cell} (h : id ∉ rows.map (idOfRow cols)) : firstRowFor cols rows id = none := by
  induction rows with
  | nil => rfl
  | cons r rs ih =>
    have h1 : idOfRow cols r ≠ id := by
      intro e
      exact h (by simp [e])
    have h2 : id ∉ rs.map (idOfRow cols) := by
      intro e
      exact h (by simp [e])
    rw [firstRowFor, List.find?_cons_of_neg _ (by simp [h1])]
    exact ih h2

theorem firstRowFor_isSome_of_mem {cols : List String} {rows : List (List Cell)}
    {id : Cell} (h : id ∈ rows.map (idOfRow cols)) :
    ∃ r0, firstRowFor cols rows id = some r0 ∧ idOfRow cols r0 = id := by
  cases hf : firstRowFor cols rows id with
  | none =>
    rw [firstRowFor] at hf
    rw [List.find?_eq_none] at hf
    obtain ⟨r0, hr0, he⟩ := List.mem_map.mp h
    exact absurd (by simp [he] : (idOfRow cols r0 == id) = true) (by simpa using hf r0 hr0)
  | some r0 =>
    refine ⟨r0, rfl, ?_⟩
    have := List.find?_some hf
    simpa using this

theorem stepRow_rowData (keep cols : List String) (sorted : List (String × Int))
    (st : TState) (r : List Cell) :
    (stepRow keep cols sorted st r).rowData =
      match dictFind st.rowData (idOfRow cols r) with
      | some _ => st.rowData
      | none => dictInsert st.rowData (idOfRow cols r) (snapDict keep cols r) := rfl

theorem stepRow_resp (keep cols : List String) (sorted : List (String × Int))
    (st : TState) (r : List Cell) :
    (stepRow keep cols sorted st r).resp =
      (fun resp1 =>
        match effMessage cols sorted r with
        | none => resp1
        | some v =>
          match dictFind resp1 (idOfRow cols r) with
          | some x => dictInsert resp1 (idOfRow cols r) (updateResp x (kindOfRow cols r) v)
          | none => resp1)
      (match dictFind st.resp (idOfRow cols r) with
       | some _ => st.resp
       | none => dictInsert st.resp (idOfRow cols r) ⟨none, none⟩) := rfl

theorem TInv_init (keep cols : List String) (sorted : List (String × Int)) :
    TInv keep cols sorted [] ⟨[], []⟩ := by
  refine ⟨rfl, fun id => rfl, fun id => ?_⟩
  simp [dictFind, firstDedup, firstDedupAux]

theorem dictFind_eq_none_of_not_mem {α β : Type} [DecidableEq α] {d : List (α × β)} {k : α}
    (h : k ∉ d.map Prod.fst) : dictFind d k = none := by
  cases hf : dictFind d k with
  | none => rfl
  | some v =>
    exact absurd ((dictFind_isSome_iff d k).mp (by rw [hf]; rfl)) h

theorem TInv_step_rowData {keep cols : List String} {sorted : List (String × Int)}
    {pre : List (List Cell)} {st : TState} (r : List Cell)
    (hA : st.rowData.map Prod.fst = firstDedup (pre.map (idOfRow cols)))
    (hB : ∀ id, dictFind st.rowData id = (firstRowFor cols pre id).map (snapDict keep cols)) :
    ((stepRow keep cols sorted st r).rowData.map Prod.fst =
        firstDedup ((pre ++ [r]).map (idOfRow cols))) ∧
    (∀ id, dictFind (stepRow keep cols sorted st r).rowData id =
        (firstRowFor cols (pre ++ [r]) id).map (snapDict keep cols)) := by
  rw [stepRow_rowData]
  rw [List.map_append]
  rw [show (([r].map (idOfRow cols)) : List Cell) = [idOfRow cols r] from rfl]
  cases hfd : dictFind st.rowData (idOfRow cols r) with
  | some s0 =>
    have hmem : idOfRow cols r ∈ st.rowData.map Prod.fst :=
      (dictFind_isSome_iff _ _).mp (by rw [hfd]; rfl)
    rw [hA] at hmem
    constructor
    · show st.rowData.map Prod.fst = _
      rw [firstDedup_snoc, if_pos hmem, hA]
    · intro id
      show dictFind st.rowData id = _
      rw [firstRowFor_snoc]
      by_cases hid : id = idOfRow cols r
      · rw [hid]
        cases hfr : firstRowFor cols pre (idOfRow cols r) with
        | none =>
          have hb := hB (idOfRow cols r)
          rw [hfr, hfd] at hb
          exact absurd hb (by simp)
        | some r0 =>
          have hb := hB (idOfRow cols r)
          rw [hfr] at hb
          exact hb
      · cases hfr : firstRowFor cols pre id with
        | none =>
          have hb := hB id
          rw [hfr] at hb
          simp only [Option.map_none'] at hb
          rw [hb, if_neg (fun e => hid e.symm)]
          rfl
        | some r0 =>
          have hb := hB id
          rw [hfr] at hb
          exact hb
  | none =>
    have hni : idOfRow cols r ∉ st.rowData.map Prod.fst := by
      intro hmem
      have := (dictFind_isSome_iff st.rowData (idOfRow cols r)).mpr hmem
      rw [hfd] at this
      simp at this
    constructor
    · show (dictInsert st.rowData (idOfRow cols r) (snapDict keep cols r)).map Prod.fst = _
      rw [dictInsert_keys, if_neg hni, hA]
      rw [firstDedup_snoc, if_neg (by rw [← hA]; exact hni)]
    · intro id
      show dictFind (dictInsert st.rowData (idOfRow cols r) (snapDict keep cols r)) id = _
      rw [dictFind_insert, firstRowFor_snoc]
      by_cases hid : id = idOfRow cols r
      · rw [if_pos hid, hid]
        have hfr : firstRowFor cols pre (idOfRow cols r) = none := by
          cases hfr : firstRowFor cols pre (idOfRow cols r) with
          | none => rfl
          | some r0 =>
            have hb := hB (idOfRow cols r)
            rw [hfr, hfd] at hb
            exact absurd hb (by simp)
        rw [hfr, if_pos rfl]
        rfl
      · rw [if_neg hid]
        cases hfr : firstRowFor cols pre id with
        | none =>
          have hb := hB id
          rw [hfr] at hb
          simp only [Option.map_none'] at hb
          rw [hb, if_neg (fun e => hid e.symm)]
          rfl
        | some r0 =>
          have hb := hB id
          rw [hfr] at hb
          exact hb

theorem TInv_step_resp {keep cols : List String} {sorted : List (String × Int)}
    {pre : List (List Cell)} {st : TState} (r : List Cell)
    (hC : ∀ id, dictFind st.resp id =
      if id ∈ pre.map (idOfRow cols) then
        some ⟨lastEffWith cols (effMessage cols sorted) pre id "Actual",
              lastEffWith cols (effMessage cols sorted) pre id "Expected"⟩
      else none) :
    ∀ id, dictFind (stepRow keep cols sorted st r).resp id =
      if id ∈ (pre ++ [r]).map (idOfRow cols) then
        some ⟨lastEffWith cols (effMessage cols sorted) (pre ++ [r]) id "Actual",
              lastEffWith cols (effMessage cols sorted) (pre ++ [r]) id "Expected"⟩
      else none := by
  have hres1 : ∀ id, dictFind
      (match dictFind st.resp (idOfRow cols r) with
       | some _ => st.resp
       | none => dictInsert st.resp (idOfRow cols r) ⟨none, none⟩) id =
      if id = idOfRow cols r ∨ id ∈ pre.map (idOfRow cols) then
        some ⟨lastEffWith cols (effMessage cols sorted) pre id "Actual",
              lastEffWith cols (effMessage cols sorted) pre id "Expected"⟩
      else none := by
    intro id
    cases hfd : dictFind st.resp (idOfRow cols r) with
    | some x =>
      have hmem : idOfRow cols r ∈ pre.map (idOfRow cols) := by
        by_contra hn
        have hc := hC (idOfRow cols r)
        rw [if_neg hn, hfd] at hc
        exact absurd hc (by simp)
      by_cases hid : id = idOfRow cols r
      · rw [hC id, hid, if_pos hmem, if_pos (Or.inl rfl)]
      · by_cases hpm : id ∈ pre.map (idOfRow cols)
        · rw [hC id, if_pos hpm, if_pos (Or.inr hpm)]
        · rw [hC id, if_neg hpm, if_neg (by rintro (h | h); exact hid h; exact hpm h)]
    | none =>
      have hnm : idOfRow cols r ∉ pre.map (idOfRow cols) := by
        intro hmem
        have hc := hC (idOfRow cols r)
        rw [if_pos hmem, hfd] at hc
        exact absurd hc (by simp)
      rw [dictFind_insert]
      by_cases hid : id = idOfRow cols r
      · rw [if_pos hid, if_pos (Or.inl hid), hid]
        rw [lastEffWith_eq_none_of_not_mem hnm, lastEffWith_eq_none_of_not_mem hnm]
      · rw [if_neg hid]
        by_cases hpm : id ∈ pre.map (idOfRow cols)
        · rw [hC id, if_pos hpm, if_pos (Or.inr hpm)]
        · rw [hC id, if_neg hpm, if_neg (by rintro (h | h); exact hid h; exact hpm h)]
  intro id
  rw [stepRow_resp]
  show dictFind
      (match effMessage cols sorted r with
       | none =>
         (match dictFind st.resp (idOfRow cols r) with
          | some _ => st.resp
          | none => dictInsert st.resp (idOfRow cols r) ⟨none, none⟩)
       | some v =>
         match dictFind
             (match dictFind st.resp (idOfRow cols r) with
              | some _ => st.resp
              | none => dictInsert st.resp (idOfRow cols r) ⟨none, none⟩)
             (idOfRow cols r) with
         | some x =>
           dictInsert
             (match dictFind st.resp (idOfRow cols r) with
              | some _ => st.resp
              | none => dictInsert st.resp (idOfRow cols r) ⟨none, none⟩)
             (idOfRow cols r) (updateResp x (kindOfRow cols r) v)
         | none =>
           (match dictFind st.resp (idOfRow cols r) with
            | some _ => st.resp
            | none => dictInsert st.resp (idOfRow cols r) ⟨none, none⟩)) id = _
  have hmemS : idOfRow cols r ∈ ((pre ++ [r]).map (idOfRow cols)) := by
    rw [List.map_append]
    exact List.mem_append_right _ (by simp)
  have hAsnoc := lastEffWith_snoc cols (effMessage cols sorted) pre r id "Actual"
  have hEsnoc := lastEffWith_snoc cols (effMessage cols sorted) pre r id "Expected"
  cases hEv : effMessage cols sorted r with
  | none =>
    rw [hres1 id]
    have hAx : lastEffWith cols (effMessage cols sorted) (pre ++ [r]) id "Actual" =
        lastEffWith cols (effMessage cols sorted) pre id "Actual" := by
      rw [hAsnoc, hEv]
      rw [ite_self]
    have hEx : lastEffWith cols (effMessage cols sorted) (pre ++ [r]) id "Expected" =
        lastEffWith cols (effMessage cols sorted) pre id "Expected" := by
      rw [hEsnoc, hEv]
      rw [ite_self]
    rw [hAx, hEx]
    by_cases hid : id = idOfRow cols r
    · rw [if_pos (Or.inl hid), if_pos (hid ▸ hmemS)]
    · by_cases hpm : id ∈ pre.map (idOfRow cols)
      · rw [if_pos (Or.inr hpm), if_pos (by rw [List.map_append]; exact List.mem_append_left _ hpm)]
      · rw [if_neg (by rintro (h | h); exact hid h; exact hpm h)]
        rw [if_neg (by
          rw [List.map_append]
          intro hmm
          rcases List.mem_append.mp hmm with h | h
          · exact hpm h
          · exact hid (by simpa using h))]
  | some v =>
    rw [hres1 (idOfRow cols r), if_pos (Or.inl rfl), dictFind_insert]
    by_cases hid : id = idOfRow cols r
    · rw [if_pos hid, if_pos (hid ▸ hmemS), hid]
      have hAsnoc' := lastEffWith_snoc cols (effMessage cols sorted) pre r
        (idOfRow cols r) "Actual"
      have hEsnoc' := lastEffWith_snoc cols (effMessage cols sorted) pre r
        (idOfRow cols r) "Expected"
      by_cases hka : kindOfRow cols r = some "Actual"
      · have hA2 : lastEffWith cols (effMessage cols sorted) (pre ++ [r])
            (idOfRow cols r) "Actual" = some v := by
          rw [hAsnoc', if_pos ⟨rfl, hka⟩, hEv]
        have hE2 : lastEffWith cols (effMessage cols sorted) (pre ++ [r])
            (idOfRow cols r) "Expected" =
            lastEffWith cols (effMessage cols sorted) pre (idOfRow cols r) "Expected" := by
          rw [hEsnoc', if_neg (by rintro ⟨-, hk⟩; rw [hka] at hk; exact absurd hk (by decide))]
        rw [hA2, hE2, updateResp, if_pos hka]
      · by_cases hke : kindOfRow cols r = some "Expected"
        · have hE2 : lastEffWith cols (effMessage cols sorted) (pre ++ [r])
              (idOfRow cols r) "Expected" = some v := by
            rw [hEsnoc', if_pos ⟨rfl, hke⟩, hEv]
          have hA2 : lastEffWith cols (effMessage cols sorted) (pre ++ [r])
              (idOfRow cols r) "Actual" =
              lastEffWith cols (effMessage cols sorted) pre (idOfRow cols r) "Actual" := by
            rw [hAsnoc', if_neg (by rintro ⟨-, hk⟩; exact hka hk)]
          rw [hA2, hE2, updateResp, if_neg hka, if_pos hke]
        · have hE2 : lastEffWith cols (effMessage cols sorted) (pre ++ [r])
              (idOfRow cols r) "Expected" =
              lastEffWith cols (effMessage cols sorted) pre (idOfRow cols r) "Expected" := by
            rw [hEsnoc', if_neg (by rintro ⟨-, hk⟩; exact hke hk)]
          have hA2 : lastEffWith cols (effMessage cols sorted) (pre ++ [r])
              (idOfRow cols r) "Actual" =
              lastEffWith cols (effMessage cols sorted) pre (idOfRow cols r) "Actual" := by
            rw [hAsnoc', if_neg (by rintro ⟨-, hk⟩; exact hka hk)]
          rw [hA2, hE2, updateResp, if_neg hka, if_neg hke]
    · rw [if_neg hid, hres1 id]
      have hAx : lastEffWith cols (effMessage cols sorted) (pre ++ [r]) id "Actual" =
          lastEffWith cols (effMessage cols sorted) pre id "Actual" := by
        rw [hAsnoc, if_neg (by rintro ⟨hi2, -⟩; exact hid hi2.symm)]
      have hEx : lastEffWith cols (effMessage cols sorted) (pre ++ [r]) id "Expected" =
          lastEffWith cols (effMessage cols sorted) pre id "Expected" := by
        rw [hEsnoc, if_neg (by rintro ⟨hi2, -⟩; exact hid hi2.symm)]
      rw [hAx, hEx]
      by_cases hpm : id ∈ pre.map (idOfRow cols)
      · rw [if_pos (Or.inr hpm), if_pos (by rw [List.map_append]; exact List.mem_append_left _ hpm)]
      · rw [if_neg (by rintro (h | h); exact hid h; exact hpm h)]
        rw [if_neg (by
          rw [List.map_append]
          intro hmm
          rcases List.mem_append.mp hmm with h | h
          · exact hpm h
          · exact hid (by simpa using h))]

theorem TInv_step {keep cols : List String} {sorted : List (String × Int)}
    {pre : List (List Cell)} {st : TState} (r : List Cell)
    (h : TInv keep cols sorted pre st) :
    TInv keep cols sorted (pre ++ [r]) (stepRow keep cols sorted st r) := by
  obtain ⟨hA, hB, hC⟩ := h
  obtain ⟨hA', hB'⟩ := @TInv_step_rowData keep cols sorted pre st r hA hB
  exact ⟨hA', hB', @TInv_step_resp keep cols sorted pre st r hC⟩

theorem TInv_fold {keep cols : List String} {sorted : List (String × Int)}
    (rows : List (List Cell)) :
    ∀ (pre : List (List Cell)) (st : TState), TInv keep cols sorted pre st →
      TInv keep cols sorted (pre ++ rows) (rows.foldl (stepRow keep cols sorted) st) := by
  induction rows with
  | nil =>
    intro pre st h
    simpa using h
  | cons r rs ih =>
    intro pre st h
    have h2 := ih (pre ++ [r]) _ (TInv_step r h)
    rw [List.append_assoc] at h2
    simpa using h2

theorem TInv_final (keep cols : List String) (sorted : List (String × Int))
    (rows : List (List Cell)) :
    TInv keep cols sorted rows (rows.foldl (stepRow keep cols sorted) ⟨[], []⟩) := by
  have h := TInv_fold rows [] ⟨[], []⟩ (TInv_init keep cols sorted)
  simpa using h

theorem foldl_dictInsert_fresh (f : String → Cell) :
    ∀ (keep : List String) (acc : List (String × Cell)), keep.Nodup →
      (∀ c ∈ keep, c ∉ acc.map Prod.fst) →
      keep.foldl (fun d c => dictInsert d c (f c)) acc =
        acc ++ keep.map (fun c => (c, f c)) := by
  intro keep
  induction keep with
  | nil =>
    intro acc _ _
    simp
  | cons c cs ih =>
    intro acc hnd hfr
    have hc : c ∉ acc.map Prod.fst := hfr c (List.mem_cons_self c cs)
    have hnd' := List.nodup_cons.mp hnd
    rw [List.foldl_cons, dictInsert_of_not_mem hc]
    rw [ih (acc ++ [(c, f c)]) hnd'.2 ?_]
    · simp
    · intro x hx
      rw [List.map_append]
      intro hmm
      rcases List.mem_append.mp hmm with h | h
      · exact hfr x (List.mem_cons_of_mem c hx) h
      · have : x = c := by simpa using h
        exact hnd'.1 (this ▸ hx)

theorem snapDict_eq_map {keep cols : List String} (r : List Cell) (hnd : keep.Nodup) :
    snapDict keep cols r = keep.map (fun c => (c, cellAt cols r c)) := by
  rw [snapDict, foldl_dictInsert_fresh _ keep [] hnd (by simp)]
  rfl

theorem collect_eq_firstDedupAux (d : List (String × Cell)) (acc : List String) :
    d.foldl (fun a p => if p.1 ∈ a then a else a ++ [p.1]) acc =
      firstDedupAux acc (d.map Prod.fst) := by
  induction d generalizing acc with
  | nil => rfl
  | cons p ps ih =>
    rw [List.foldl_cons, List.map_cons, firstDedupAux, ih]

theorem frameOfDicts_const_keys {L : List String} (hnd : L.Nodup)
    (dicts : List (List (String × Cell))) (hkeys : ∀ d ∈ dicts, d.map Prod.fst = L) :
    frameOfDicts dicts =
      ⟨if dicts.isEmpty then [] else L, dicts.map (List.map Prod.snd)⟩ := by
  cases dicts with
  | nil => rfl
  | cons d0 rest =>
    have hcols : (d0 :: rest).foldl
        (fun acc d => d.foldl (fun a p => if p.1 ∈ a then a else a ++ [p.1]) acc) [] = L := by
      rw [List.foldl_cons, collect_eq_firstDedupAux,
        hkeys d0 (List.mem_cons_self d0 rest)]
      have h0 : firstDedupAux [] L = L := firstDedup_of_nodup hnd
      rw [h0]
      have : ∀ (ds : List (List (String × Cell))), (∀ d ∈ ds, d.map Prod.fst = L) →
          ds.foldl (fun acc d =>
            d.foldl (fun a p => if p.1 ∈ a then a else a ++ [p.1]) acc) L = L := by
        intro ds
        induction ds with
        | nil => intro _; rfl
        | cons e es ihe =>
          intro hall
          rw [List.foldl_cons, collect_eq_firstDedupAux, hall e (List.mem_cons_self e es)]
          rw [firstDedupAux_of_all_mem (fun x hx => hx)]
          exact ihe (fun d hd => hall d (List.mem_cons_of_mem e hd))
      exact this rest (fun d hd => hkeys d (List.mem_cons_of_mem d0 hd))
    rw [frameOfDicts]
    rw [hcols]
    simp only [List.isEmpty_cons, Bool.false_eq_true, if_false]
    congr 1
    apply List.map_congr_left
    intro d hd
    have hdk := hkeys d hd
    have hdnd : (d.map Prod.fst).Nodup := hdk ▸ hnd
    have := assoc_eq_map_keys d none hdnd
    conv_rhs => rw [this]
    rw [List.map_map, hdk]
    apply List.map_congr_left
    intro k _
    rfl

theorem transform_spec (df : Frame) {m : String} {ms : List String}
    {keyed : List (String × Int)}
    (hnd : df.cols.Nodup) (hA : "Actual" ∉ df.cols) (hE : "Expected" ∉ df.cols)
    (hcid : "ChatID" ∈ df.cols) (hkind : "ActualOrExpected" ∈ df.cols)
    (hm : df.cols.filter (fun c => isMessageCol c) = m :: ms)
    (hk : keyCols (m :: ms) = .ok keyed) :
    transform_chat_responses df = .ok (consolidateSpec df keyed) := by
  have heff : effMessage df.cols (sortDesc keyed) = specEffMessage df.cols keyed :=
    funext (fun row => effMessage_eq_spec df.cols keyed row)
  unfold transform_chat_responses
  rw [if_pos ⟨hcid, hkind⟩, hm]
  simp only [List.isEmpty_cons, Bool.false_eq_true, if_false, hk]
  set keep := df.cols.filter (fun c => !(c == "ActualOrExpected")) with hkeep
  have hkeepnd : keep.Nodup := List.Nodup.filter _ hnd
  have hAkeep : "Actual" ∉ keep := fun h => hA (List.mem_of_mem_filter h)
  have hEkeep : "Expected" ∉ keep := fun h => hE (List.mem_of_mem_filter h)
  obtain ⟨hA₁, hB₁, hC₁⟩ := TInv_final keep df.cols (sortDesc keyed) df.rows
  set final := df.rows.foldl (stepRow keep df.cols (sortDesc keyed)) ⟨[], []⟩ with hfinal
  set distinct := firstDedup (df.rows.map (idOfRow df.cols)) with hdistinct
  have hkeysnd : (final.rowData.map Prod.fst).Nodup := by
    rw [hA₁]
    exact nodup_firstDedup _
  have hrdeq : final.rowData = distinct.map (fun id =>
      (id, snapDict keep df.cols ((firstRowFor df.cols df.rows id).getD []))) := by
    conv_lhs => rw [assoc_eq_map_keys final.rowData [] hkeysnd]
    rw [hA₁]
    apply List.map_congr_left
    intro id hid
    have hmem : id ∈ df.rows.map (idOfRow df.cols) := mem_firstDedup.mp hid
    obtain ⟨r0, hr0, -⟩ := firstRowFor_isSome_of_mem hmem
    rw [hB₁ id, hr0]
    rfl
  have hdicts : final.rowData.map (fun p =>
      dictInsert (dictInsert p.2 "Actual"
          ((dictFind final.resp p.1).getD ⟨none, none⟩).actual) "Expected"
        ((dictFind final.resp p.1).getD ⟨none, none⟩).expected) =
      distinct.map (fun id =>
        keep.map (fun c => (c, cellAt df.cols ((firstRowFor df.cols df.rows id).getD []) c)) ++
          [("Actual", lastEffWith df.cols (effMessage df.cols (sortDesc keyed)) df.rows id "Actual"),
           ("Expected", lastEffWith df.cols (effMessage df.cols (sortDesc keyed)) df.rows id "Expected")]) := by
    rw [hrdeq, List.map_map]
    apply List.map_congr_left
    intro id hid
    have hmem : id ∈ df.rows.map (idOfRow df.cols) := mem_firstDedup.mp hid
    have hresp := hC₁ id
    rw [if_pos hmem] at hresp
    show dictInsert (dictInsert (snapDict keep df.cols ((firstRowFor df.cols df.rows id).getD []))
        "Actual" ((dictFind final.resp id).getD ⟨none, none⟩).actual) "Expected"
        ((dictFind final.resp id).getD ⟨none, none⟩).expected = _
    rw [hresp, snapDict_eq_map _ hkeepnd]
    have hsnapkeys : ((keep.map (fun c => (c, cellAt df.cols
        ((firstRowFor df.cols df.rows id).getD []) c))).map Prod.fst) = keep := by
      rw [List.map_map]
      conv_rhs => rw [← List.map_id keep]
      apply List.map_congr_left
      intro c _
      rfl
    have h1 := dictInsert_of_not_mem (d := keep.map (fun c => (c, cellAt df.cols
        ((firstRowFor df.cols df.rows id).getD []) c))) (k := "Actual")
      (by rw [hsnapkeys]; exact hAkeep)
      (lastEffWith df.cols (effMessage df.cols (sortDesc keyed)) df.rows id "Actual")
    rw [show ((some ⟨lastEffWith df.cols (effMessage df.cols (sortDesc keyed)) df.rows id "Actual",
        lastEffWith df.cols (effMessage df.cols (sortDesc keyed)) df.rows id "Expected"⟩ :
        Option ChatResp).getD ⟨none, none⟩) =
        ⟨lastEffWith df.cols (effMessage df.cols (sortDesc keyed)) df.rows id "Actual",
         lastEffWith df.cols (effMessage df.cols (sortDesc keyed)) df.rows id "Expected"⟩ from rfl]
    rw [h1]
    have h2 := dictInsert_of_not_mem (d := keep.map (fun c => (c, cellAt df.cols
        ((firstRowFor df.cols df.rows id).getD []) c)) ++
        [("Actual", lastEffWith df.cols (effMessage df.cols (sortDesc keyed)) df.rows id "Actual")])
      (k := "Expected")
      (by
        rw [List.map_append, hsnapkeys]
        intro hmm
        rcases List.mem_append.mp hmm with h | h
        · exact hEkeep h
        · simp at h)
      (lastEffWith df.cols (effMessage df.cols (sortDesc keyed)) df.rows id "Expected")
    rw [h2, List.append_assoc]
    rfl
  rw [buildOutput, hdicts]
  have hLnd : (keep ++ ["Actual", "Expected"]).Nodup := by
    rw [List.nodup_append]
    refine ⟨hkeepnd, by decide, ?_⟩
    intro a ha hb
    rcases List.mem_cons.mp hb with h | h
    · exact hAkeep (h ▸ ha)
    · rcases List.mem_cons.mp h with h' | h'
      · exact hEkeep (h' ▸ ha)
      · simp at h'
  have hkeysOf : ∀ d ∈ distinct.map (fun id =>
      keep.map (fun c => (c, cellAt df.cols ((firstRowFor df.cols df.rows id).getD []) c)) ++
        [("Actual", lastEffWith df.cols (effMessage df.cols (sortDesc keyed)) df.rows id "Actual"),
         ("Expected", lastEffWith df.cols (effMessage df.cols (sortDesc keyed)) df.rows id "Expected")]),
      d.map Prod.fst = keep ++ ["Actual", "Expected"] := by
    intro d hd
    obtain ⟨id, -, hde⟩ := List.mem_map.mp hd
    rw [← hde, List.map_append, List.map_map]
    congr 1
    conv_rhs => rw [← List.map_id keep]
    apply List.map_congr_left
    intro c _
    rfl
  rw [frameOfDicts_const_keys hLnd _ hkeysOf]
  have hempty : (distinct.map (fun id =>
      keep.map (fun c => (c, cellAt df.cols ((firstRowFor df.cols df.rows id).getD []) c)) ++
        [("Actual", lastEffWith df.cols (effMessage df.cols (sortDesc keyed)) df.rows id "Actual"),
         ("Expected", lastEffWith df.cols (effMessage df.cols (sortDesc keyed)) df.rows id "Expected")])).isEmpty
      = df.rows.isEmpty := by
    cases hrows : df.rows with
    | nil => rw [hdistinct, hrows]; rfl
    | cons r rs =>
      rw [hdistinct, hrows]
      cases hfd : firstDedup ((r :: rs).map (idOfRow df.cols)) with
      | nil => exact absurd hfd firstDedup_ne_nil
      | cons a as => rfl
  simp only [consolidateSpec]
  refine congrArg Except.ok ?_
  rw [Frame.mk.injEq]
  refine ⟨?_, ?_⟩
  · rw [hempty]
  · rw [List.map_map]
    apply List.map_congr_left
    intro id _
    show ((keep.map (fun c => (c, cellAt df.cols ((firstRowFor df.cols df.rows id).getD []) c)) ++
        [("Actual", lastEffWith df.cols (effMessage df.cols (sortDesc keyed)) df.rows id "Actual"),
         ("Expected", lastEffWith df.cols (effMessage df.cols (sortDesc keyed)) df.rows id "Expected")]).map
        Prod.snd) = _
    rw [List.map_append, List.map_map, heff]
    rfl

/-! ### Claims C3, C4, C5: shape and content of the consolidated output -/

/-- C3 (amended): for every accepted input frame with at least one row,
distinct column names not already containing "Actual" or "Expected", the
output column sequence is exactly the input columns in original order
minus 'ActualOrExpected' followed by 'Actual' and then 'Expected'
appended at the end, and each output row carries the per-kind response
cells (a pair never populated for a chat id appears as the missing
marker `none`, since its last-seen lookup is empty). -/
theorem consolidator_column_sequence (df : Frame) (m : String) (ms : List String)
    (keyed : List (String × Int))
    (hnd : df.cols.Nodup) (hA : "Actual" ∉ df.cols) (hE : "Expected" ∉ df.cols)
    (hcid : "ChatID" ∈ df.cols) (hkind : "ActualOrExpected" ∈ df.cols)
    (hm : df.cols.filter (fun c => isMessageCol c) = m :: ms)
    (hk : keyCols (m :: ms) = .ok keyed)
    (hr : df.rows ≠ []) :
    ∃ out, transform_chat_responses df = .ok out ∧
      out.cols = df.cols.filter (fun c => !(c == "ActualOrExpected")) ++
        ["Actual", "Expected"] ∧
      out.rows = (firstDedup (df.rows.map (idOfRow df.cols))).map (fun id =>
        (df.cols.filter (fun c => !(c == "ActualOrExpected"))).map
          (cellAt df.cols ((firstRowFor df.cols df.rows id).getD [])) ++
        [lastEffWith df.cols (specEffMessage df.cols keyed) df.rows id "Actual",
         lastEffWith df.cols (specEffMessage df.cols keyed) df.rows id "Expected"]) := by
  refine ⟨_, transform_spec df hnd hA hE hcid hkind hm hk, ?_, rfl⟩
  show (if df.rows.isEmpty then [] else
    df.cols.filter (fun c => !(c == "ActualOrExpected")) ++ ["Actual", "Expected"]) = _
  cases hrows : df.rows with
  | nil => exact absurd hrows hr
  | cons r rs => rfl

/-- C3 counterexample: the two response columns are appended as 'Actual'
then 'Expected', not 'Expected' then 'Actual' as the claim's sequence
states. -/
theorem consolidator_column_order_counterexample :
    transform_chat_responses ⟨["ChatID", "ActualOrExpected", "Message_No_1"],
      [[some "c", some "Actual", some "x"]]⟩ =
      .ok ⟨["ChatID", "Message_No_1", "Actual", "Expected"],
        [[some "c", some "x", some "x", none]]⟩ ∧
    (["ChatID", "Message_No_1", "Actual", "Expected"] : List String) ≠
      ["ChatID", "Message_No_1", "Expected", "Actual"] :=
  ⟨rfl, by decide⟩

theorem consolidator_column_sequence_witness :
    ∃ out, transform_chat_responses
        ⟨["ChatID", "ActualOrExpected", "Message_No_1"],
          [[some "c", some "Expected", some "x"]]⟩ = .ok out ∧
      out.cols = (["ChatID", "ActualOrExpected", "Message_No_1"] : List String).filter
          (fun c => !(c == "ActualOrExpected")) ++ ["Actual", "Expected"] ∧
      out.rows = (firstDedup ([[some "c", some "Expected", some "x"]].map
          (idOfRow ["ChatID", "ActualOrExpected", "Message_No_1"]))).map (fun id =>
        ((["ChatID", "ActualOrExpected", "Message_No_1"] : List String).filter
            (fun c => !(c == "ActualOrExpected"))).map
          (cellAt ["ChatID", "ActualOrExpected", "Message_No_1"]
            ((firstRowFor ["ChatID", "ActualOrExpected", "Message_No_1"]
              [[some "c", some "Expected", some "x"]] id).getD [])) ++
        [lastEffWith ["ChatID", "ActualOrExpected", "Message_No_1"]
           (specEffMessage ["ChatID", "ActualOrExpected", "Message_No_1"]
             [("Message_No_1", 1)])
           [[some "c", some "Expected", some "x"]] id "Actual",
         lastEffWith ["ChatID", "ActualOrExpected", "Message_No_1"]
           (specEffMessage ["ChatID", "ActualOrExpected", "Message_No_1"]
             [("Message_No_1", 1)])
           [[some "c", some "Expected", some "x"]] id "Expected"]) :=
  consolidator_column_sequence
    ⟨["ChatID", "ActualOrExpected", "Message_No_1"], [[some "c", some "Expected", some "x"]]⟩
    "Message_No_1" [] [("Message_No_1", 1)]
    (by decide) (by decide) (by decide) (by decide) (by decide)
    (by rfl) (by rfl) (by decide)

/-- C4: each row's effective message value is the raw cell of the
qualifying (present, non-blank after trimming) message column with the
highest integer key, scanning in descending key order (absent when no
cell qualifies); and the consolidated output stores, per (chat id, kind),
the effective value of the LAST row of that id and kind that had one —
last-seen-per-kind wins (the `lastEffWith` lookup). -/
theorem effective_message_rule :
    (∀ (cols : List String) (keyed : List (String × Int)) (row : List Cell),
      effMessage cols (sortDesc keyed) row = specEffMessage cols keyed row) ∧
    (∀ (df : Frame) (m : String) (ms : List String) (keyed : List (String × Int)),
      df.cols.Nodup → "Actual" ∉ df.cols → "Expected" ∉ df.cols →
      "ChatID" ∈ df.cols → "ActualOrExpected" ∈ df.cols →
      df.cols.filter (fun c => isMessageCol c) = m :: ms →
      keyCols (m :: ms) = .ok keyed →
      ∃ out, transform_chat_responses df = .ok out ∧
        out.rows = (firstDedup (df.rows.map (idOfRow df.cols))).map (fun id =>
          (df.cols.filter (fun c => !(c == "ActualOrExpected"))).map
            (cellAt df.cols ((firstRowFor df.cols df.rows id).getD [])) ++
          [lastEffWith df.cols (specEffMessage df.cols keyed) df.rows id "Actual",
           lastEffWith df.cols (specEffMessage df.cols keyed) df.rows id "Expected"])) := by
  constructor
  · exact effMessage_eq_spec
  · intro df m ms keyed hnd hA hE hcid hkind hm hk
    exact ⟨_, transform_spec df hnd hA hE hcid hkind hm hk, rfl⟩

theorem effective_message_rule_witness :
    (effMessage ["ChatID", "ActualOrExpected", "Message_No_1", "Message_No_3", "Message_No_5"]
        (sortDesc [("Message_No_1", 1), ("Message_No_3", 3), ("Message_No_5", 5)])
        [some "c1", some "Actual", some "B", none, some "C"] =
      specEffMessage ["ChatID", "ActualOrExpected", "Message_No_1", "Message_No_3", "Message_No_5"]
        [("Message_No_1", 1), ("Message_No_3", 3), ("Message_No_5", 5)]
        [some "c1", some "Actual", some "B", none, some "C"]) ∧
    transform_chat_responses
        ⟨["ChatID", "ActualOrExpected", "Message_No_1", "Message_No_3", "Message_No_5"],
          [[some "c1", some "Expected", none, some "A", none],
           [some "c1", some "Actual", some "B", none, some "C"]]⟩ =
      .ok ⟨["ChatID", "Message_No_1", "Message_No_3", "Message_No_5", "Actual", "Expected"],
        [[some "c1", none, some "A", none, some "C", some "A"]]⟩ ∧
    (∃ out, transform_chat_responses
        ⟨["ChatID", "ActualOrExpected", "Message_No_1", "Message_No_3", "Message_No_5"],
          [[some "c1", some "Expected", none, some "A", none],
           [some "c1", some "Actual", some "B", none, some "C"]]⟩ = .ok out ∧
      out.rows = (firstDedup ([[some "c1", some "Expected", none, some "A", none],
          [some "c1", some "Actual", some "B", none, some "C"]].map
          (idOfRow ["ChatID", "ActualOrExpected", "Message_No_1", "Message_No_3",
            "Message_No_5"]))).map (fun id =>
        ((["ChatID", "ActualOrExpected", "Message_No_1", "Message_No_3",
            "Message_No_5"] : List String).filter (fun c => !(c == "ActualOrExpected"))).map
          (cellAt ["ChatID", "ActualOrExpected", "Message_No_1", "Message_No_3", "Message_No_5"]
            ((firstRowFor ["ChatID", "ActualOrExpected", "Message_No_1", "Message_No_3",
                "Message_No_5"]
              [[some "c1", some "Expected", none, some "A", none],
               [some "c1", some "Actual", some "B", none, some "C"]] id).getD [])) ++
        [lastEffWith ["ChatID", "ActualOrExpected", "Message_No_1", "Message_No_3",
            "Message_No_5"]
           (specEffMessage ["ChatID", "ActualOrExpected", "Message_No_1", "Message_No_3",
             "Message_No_5"] [("Message_No_1", 1), ("Message_No_3", 3), ("Message_No_5", 5)])
           [[some "c1", some "Expected", none, some "A", none],
            [some "c1", some "Actual", some "B", none, some "C"]] id "Actual",
         lastEffWith ["ChatID", "ActualOrExpected", "Message_No_1", "Message_No_3",
            "Message_No_5"]
           (specEffMessage ["ChatID", "ActualOrExpected", "Message_No_1", "Message_No_3",
             "Message_No_5"] [("Message_No_1", 1), ("Message_No_3", 3), ("Message_No_5", 5)])
           [[some "c1", some "Expected", none, some "A", none],
            [some "c1", some "Actual", some "B", none, some "C"]] id "Expected"])) :=
  ⟨effective_message_rule.1 _ _ _, by rfl,
    effective_message_rule.2
      ⟨["ChatID", "ActualOrExpected", "Message_No_1", "Message_No_3", "Message_No_5"],
        [[some "c1", some "Expected", none, some "A", none],
         [some "c1", some "Actual", some "B", none, some "C"]]⟩
      "Message_No_1" ["Message_No_3", "Message_No_5"]
      [("Message_No_1", 1), ("Message_No_3", 3), ("Message_No_5", 5)]
      (by decide) (by decide) (by decide) (by decide) (by decide) (by rfl) (by rfl)⟩

/-- C5: the consolidated output has exactly one row per distinct chat id
of the input, in order of first appearance, with no duplicates — the
sequence of ChatID cells of the output equals the first-appearance
deduplication of the input's id sequence — and each output row's
ordinary columns hold the cells of the FIRST input row seen with that
id (later rows never overwrite the base snapshot). -/
theorem consolidator_one_row_per_id (df : Frame) (m : String) (ms : List String)
    (keyed : List (String × Int))
    (hnd : df.cols.Nodup) (hA : "Actual" ∉ df.cols) (hE : "Expected" ∉ df.cols)
    (hcid : "ChatID" ∈ df.cols) (hkind : "ActualOrExpected" ∈ df.cols)
    (hm : df.cols.filter (fun c => isMessageCol c) = m :: ms)
    (hk : keyCols (m :: ms) = .ok keyed) :
    ∃ out, transform_chat_responses df = .ok out ∧
      out.rows.length = (firstDedup (df.rows.map (idOfRow df.cols))).length ∧
      (firstDedup (df.rows.map (idOfRow df.cols))).Nodup ∧
      out.rows.map (fun r => cellAt out.cols r "ChatID") =
        firstDedup (df.rows.map (idOfRow df.cols)) ∧
      out.rows = (firstDedup (df.rows.map (idOfRow df.cols))).map (fun id =>
        (df.cols.filter (fun c => !(c == "ActualOrExpected"))).map
          (cellAt df.cols ((firstRowFor df.cols df.rows id).getD [])) ++
        [lastEffWith df.cols (specEffMessage df.cols keyed) df.rows id "Actual",
         lastEffWith df.cols (specEffMessage df.cols keyed) df.rows id "Expected"]) := by
  refine ⟨_, transform_spec df hnd hA hE hcid hkind hm hk,
    List.length_map _ _, nodup_firstDedup _, ?_, rfl⟩
  show ((consolidateSpec df keyed).rows).map
      (fun r => cellAt (consolidateSpec df keyed).cols r "ChatID") = _
  have hChatKeep : "ChatID" ∈ df.cols.filter (fun c => !(c == "ActualOrExpected")) :=
    List.mem_filter.mpr ⟨hcid, by decide⟩
  obtain ⟨j, hj⟩ := idxOf?_isSome_of_mem hChatKeep
  have hjb := idxOf?_bound hj
  have hjg := idxOf?_get? hj
  show ((firstDedup (df.rows.map (idOfRow df.cols))).map (fun id =>
      (df.cols.filter (fun c => !(c == "ActualOrExpected"))).map
        (cellAt df.cols ((firstRowFor df.cols df.rows id).getD [])) ++
      [lastEffWith df.cols (specEffMessage df.cols keyed) df.rows id "Actual",
       lastEffWith df.cols (specEffMessage df.cols keyed) df.rows id "Expected"])).map
      (fun r => cellAt (consolidateSpec df keyed).cols r "ChatID") = _
  rw [List.map_map]
  conv_rhs => rw [← List.map_id (firstDedup (df.rows.map (idOfRow df.cols)))]
  apply List.map_congr_left
  intro id hid
  have hmem : id ∈ df.rows.map (idOfRow df.cols) := mem_firstDedup.mp hid
  have hne : df.rows ≠ [] := by
    intro h
    rw [h] at hmem
    simp at hmem
  have hcolsOut : (consolidateSpec df keyed).cols =
      df.cols.filter (fun c => !(c == "ActualOrExpected")) ++ ["Actual", "Expected"] := by
    show (if df.rows.isEmpty then [] else _) = _
    cases hrows : df.rows with
    | nil => exact absurd hrows hne
    | cons r rs => rfl
  obtain ⟨r0, hr0, hr0id⟩ := firstRowFor_isSome_of_mem hmem
  show cellAt (consolidateSpec df keyed).cols
      ((df.cols.filter (fun c => !(c == "ActualOrExpected"))).map
        (cellAt df.cols ((firstRowFor df.cols df.rows id).getD [])) ++
      [lastEffWith df.cols (specEffMessage df.cols keyed) df.rows id "Actual",
       lastEffWith df.cols (specEffMessage df.cols keyed) df.rows id "Expected"]) "ChatID" = id
  rw [hcolsOut, cellAt, idxOf?_append_left hj]
  show (((df.cols.filter (fun c => !(c == "ActualOrExpected"))).map
      (cellAt df.cols ((firstRowFor df.cols df.rows id).getD [])) ++
      [lastEffWith df.cols (specEffMessage df.cols keyed) df.rows id "Actual",
       lastEffWith df.cols (specEffMessage df.cols keyed) df.rows id "Expected"]).get? j).getD
      none = id
  rw [List.get?_append (by rw [List.length_map]; exact hjb)]
  rw [List.get?_map, hjg]
  rw [hr0]
  show cellAt df.cols r0 "ChatID" = id
  exact hr0id

theorem consolidator_one_row_per_id_witness :
    ∃ out, transform_chat_responses
        ⟨["ChatID", "Note", "ActualOrExpected", "Message_No_1"],
          [[some "c1", some "n1", some "Expected", some "e"],
           [some "c1", some "n2", some "Actual", some "a"],
           [some "c2", some "n3", some "Other", some "z"]]⟩ = .ok out ∧
      out.rows.length = (firstDedup ([[some "c1", some "n1", some "Expected", some "e"],
          [some "c1", some "n2", some "Actual", some "a"],
          [some "c2", some "n3", some "Other", some "z"]].map
          (idOfRow ["ChatID", "Note", "ActualOrExpected", "Message_No_1"]))).length ∧
      (firstDedup ([[some "c1", some "n1", some "Expected", some "e"],
          [some "c1", some "n2", some "Actual", some "a"],
          [some "c2", some "n3", some "Other", some "z"]].map
          (idOfRow ["ChatID", "Note", "ActualOrExpected", "Message_No_1"]))).Nodup ∧
      out.rows.map (fun r => cellAt out.cols r "ChatID") =
        firstDedup ([[some "c1", some "n1", some "Expected", some "e"],
          [some "c1", some "n2", some "Actual", some "a"],
          [some "c2", some "n3", some "Other", some "z"]].map
          (idOfRow ["ChatID", "Note", "ActualOrExpected", "Message_No_1"])) ∧
      out.rows = (firstDedup ([[some "c1", some "n1", some "Expected", some "e"],
          [some "c1", some "n2", some "Actual", some "a"],
          [some "c2", some "n3", some "Other", some "z"]].map
          (idOfRow ["ChatID", "Note", "ActualOrExpected", "Message_No_1"]))).map (fun id =>
        ((["ChatID", "Note", "ActualOrExpected", "Message_No_1"] : List String).filter
            (fun c => !(c == "ActualOrExpected"))).map
          (cellAt ["ChatID", "Note", "ActualOrExpected", "Message_No_1"]
            ((firstRowFor ["ChatID", "Note", "ActualOrExpected", "Message_No_1"]
              [[some "c1", some "n1", some "Expected", some "e"],
               [some "c1", some "n2", some "Actual", some "a"],
               [some "c2", some "n3", some "Other", some "z"]] id).getD [])) ++
        [lastEffWith ["ChatID", "Note", "ActualOrExpected", "Message_No_1"]
           (specEffMessage ["ChatID", "Note", "ActualOrExpected", "Message_No_1"]
             [("Message_No_1", 1)])
           [[some "c1", some "n1", some "Expected", some "e"],
            [some "c1", some "n2", some "Actual", some "a"],
            [some "c2", some "n3", some "Other", some "z"]] id "Actual",
         lastEffWith ["ChatID", "Note", "ActualOrExpected", "Message_No_1"]
           (specEffMessage ["ChatID", "Note", "ActualOrExpected", "Message_No_1"]
             [("Message_No_1", 1)])
           [[some "c1", some "n1", some "Expected", some "e"],
            [some "c1", some "n2", some "Actual", some "a"],
            [some "c2", some "n3", some "Other", some "z"]] id "Expected"]) :=
  consolidator_one_row_per_id
    ⟨["ChatID", "Note", "ActualOrExpected", "Message_No_1"],
      [[some "c1", some "n1", some "Expected", some "e"],
       [some "c1", some "n2", some "Actual", some "a"],
       [some "c2", some "n3", some "Other", some "z"]]⟩
    "Message_No_1" [] [("Message_No_1", 1)]
    (by decide) (by decide) (by decide) (by decide) (by decide) (by rfl) (by rfl)

/-! ### Claim C7: when the consolidator raises -/

/-- C7 (amended): `transform_chat_responses` raises the SchemaError
`missingRequired` exactly when `ChatID` or `ActualOrExpected` is absent,
and `noMessageColumns` exactly when both are present but no column
matches the message pattern; however it can ALSO raise a non-schema
`ValueError` (`badIntLiteral`) when a matched message column's text
after its last underscore is not an integer literal. It returns a result
exactly when both required columns are present, a message column exists
and every matched column's suffix parses; a fully empty accepted input
yields a frame with zero rows (and zero columns). -/
theorem consolidator_error_conditions (df : Frame) :
    (transform_chat_responses df = .error .missingRequired ↔
      ¬("ChatID" ∈ df.cols ∧ "ActualOrExpected" ∈ df.cols)) ∧
    (transform_chat_responses df = .error .noMessageColumns ↔
      ("ChatID" ∈ df.cols ∧ "ActualOrExpected" ∈ df.cols) ∧
        df.cols.filter (fun c => isMessageCol c) = []) ∧
    ((∃ s, transform_chat_responses df = .error (.badIntLiteral s)) ↔
      ("ChatID" ∈ df.cols ∧ "ActualOrExpected" ∈ df.cols) ∧
        df.cols.filter (fun c => isMessageCol c) ≠ [] ∧
        ¬(∀ c ∈ df.cols.filter (fun c => isMessageCol c), (msgKey c).isSome)) ∧
    ((∃ g, transform_chat_responses df = .ok g) ↔
      ("ChatID" ∈ df.cols ∧ "ActualOrExpected" ∈ df.cols) ∧
        df.cols.filter (fun c => isMessageCol c) ≠ [] ∧
        (∀ c ∈ df.cols.filter (fun c => isMessageCol c), (msgKey c).isSome)) ∧
    (df.rows = [] ∧ ("ChatID" ∈ df.cols ∧ "ActualOrExpected" ∈ df.cols) ∧
        df.cols.filter (fun c => isMessageCol c) ≠ [] ∧
        (∀ c ∈ df.cols.filter (fun c => isMessageCol c), (msgKey c).isSome) →
      transform_chat_responses df = .ok ⟨[], []⟩) := by
  unfold transform_chat_responses
  by_cases hreq : ("ChatID" ∈ df.cols ∧ "ActualOrExpected" ∈ df.cols)
  · rw [if_pos hreq]
    cases hfil : df.cols.filter (fun c => isMessageCol c) with
    | nil =>
      simp only [List.isEmpty_nil, if_true]
      refine ⟨?_, ?_, ?_, ?_, ?_⟩
      · constructor
        · intro h
          exact absurd h (by simp)
        · intro h
          exact absurd hreq h
      · exact ⟨fun _ => ⟨hreq, by trivial⟩, fun _ => by trivial⟩
      · constructor
        · rintro ⟨s, hs⟩
          exact absurd hs (by simp)
        · rintro ⟨-, hne, -⟩
          exact absurd rfl hne
      · constructor
        · rintro ⟨g, hg⟩
          exact absurd hg (by simp)
        · rintro ⟨-, hne, -⟩
          exact absurd rfl hne
      · rintro ⟨-, -, hne, -⟩
        exact absurd rfl hne
    | cons m ms =>
      simp only [List.isEmpty_cons, Bool.false_eq_true, if_false]
      cases hkc : keyCols (m :: ms) with
      | error e =>
        obtain ⟨s, hs⟩ := keyCols_error_shape hkc
        subst hs
        have hnall : ¬(∀ c ∈ (m :: ms : List String), (msgKey c).isSome) := by
          intro hall
          obtain ⟨ks, hks⟩ := (keyCols_isOk_iff (m :: ms)).mpr hall
          rw [hkc] at hks
          exact absurd hks (by simp)
        refine ⟨?_, ?_, ?_, ?_, ?_⟩
        · constructor
          · intro h
            injection h with h
            exact absurd h (by simp)
          · intro h
            exact absurd hreq h
        · constructor
          · intro h
            injection h with h
            exact absurd h (by simp)
          · rintro ⟨-, hnil⟩
            exact absurd hnil (by simp)
        · exact ⟨fun _ => ⟨hreq, by simp, hnall⟩, fun _ => ⟨s, rfl⟩⟩
        · constructor
          · rintro ⟨g, hg⟩
            exact absurd hg (by simp)
          · rintro ⟨-, -, hall⟩
            exact absurd hall hnall
        · rintro ⟨-, -, -, hall⟩
          exact absurd hall hnall
      | ok keyed =>
        have hall : ∀ c ∈ (m :: ms : List String), (msgKey c).isSome :=
          (keyCols_isOk_iff (m :: ms)).mp ⟨keyed, hkc⟩
        refine ⟨?_, ?_, ?_, ?_, ?_⟩
        · constructor
          · intro h
            exact absurd h (by simp)
          · intro h
            exact absurd hreq h
        · constructor
          · intro h
            exact absurd h (by simp)
          · rintro ⟨-, hnil⟩
            exact absurd hnil (by simp)
        · constructor
          · rintro ⟨s, hs⟩
            exact absurd hs (by simp)
          · rintro ⟨-, -, hna⟩
            exact absurd hall hna
        · exact ⟨fun _ => ⟨hreq, by simp, hall⟩, fun _ => ⟨_, rfl⟩⟩
        · rintro ⟨hrows, -, -, -⟩
          rw [hrows]
          rfl
  · rw [if_neg hreq]
    refine ⟨⟨fun _ => hreq, fun _ => rfl⟩, ?_, ?_, ?_, ?_⟩
    · constructor
      · intro h
        injection h with h
        exact absurd h (by simp)
      · rintro ⟨hr, -⟩
        exact absurd hr hreq
    · constructor
      · rintro ⟨s, hs⟩
        injection hs with hs
        exact absurd hs (by simp)
      · rintro ⟨hr, -⟩
        exact absurd hr hreq
    · constructor
      · rintro ⟨g, hg⟩
        exact absurd hg (by simp)
      · rintro ⟨hr, -⟩
        exact absurd hr hreq
    · rintro ⟨-, hr, -⟩
      exact absurd hr hreq

/-- C7 counterexample: a frame with both required columns and a matching
message column (`Message_No_1_x`) raises the `int()` parse `ValueError`
(not a SchemaError), refuting "every other input shape returns a result
without raising". -/
theorem consolidator_nonschema_raise_counterexample :
    transform_chat_responses ⟨["ChatID", "ActualOrExpected", "Message_No_1_x"], []⟩ =
      .error (.badIntLiteral "x") ∧
    ("ChatID" ∈ (["ChatID", "ActualOrExpected", "Message_No_1_x"] : List String)) ∧
    ("ActualOrExpected" ∈ (["ChatID", "ActualOrExpected", "Message_No_1_x"] : List String)) ∧
    (["ChatID", "ActualOrExpected", "Message_No_1_x"] : List String).filter
        (fun c => isMessageCol c) ≠ [] ∧
    ChatErr.badIntLiteral "x" ≠ ChatErr.missingRequired ∧
    ChatErr.badIntLiteral "x" ≠ ChatErr.noMessageColumns :=
  ⟨rfl, by decide, by decide, by decide, by decide, by decide⟩

theorem consolidator_error_conditions_witness :
    transform_chat_responses ⟨["ChatID", "ActualOrExpected", "Message_No_1"], []⟩ =
      .ok ⟨[], []⟩ :=
  (consolidator_error_conditions
      ⟨["ChatID", "ActualOrExpected", "Message_No_1"], []⟩).2.2.2.2
    ⟨rfl, ⟨by decide, by decide⟩, by decide, by decide⟩

/-! ### Claim C10: trimming decides inclusion only, values stay verbatim -/

/-- C10: trimming is used only to decide whether a cell qualifies: a
qualifying message cell's ORIGINAL, untrimmed text is what appears after
the role tag in the Conversation column and in the consolidated
Actual/Expected cells — for any value `v` that is non-blank after
stripping, including values with leading or trailing whitespace. -/
theorem untrimmed_values_preserved (v : String) (h : ¬ pyStrip v = "") :
    process_data ⟨["Message_No_1"], [[some v]]⟩ =
      .ok (⟨["Conversation", "Message_No_1"], [[some ("Bot: " ++ v), some v]]⟩, true) ∧
    transform_chat_responses ⟨["ChatID", "ActualOrExpected", "Message_No_1"],
        [[some "id1", some "Actual", some v]]⟩ =
      .ok ⟨["ChatID", "Message_No_1", "Actual", "Expected"],
        [[some "id1", some v, some v, none]]⟩ := by
  constructor
  · have hconv : rowConvo ["Message_No_1"] [("Message_No_1", 1)] [some v] = "Bot: " ++ v := by
      simp [rowConvo, List.filterMap, cellAt, idxOf?, h]
      rfl
    have h2 : process_data ⟨["Message_No_1"], [[some v]]⟩ =
        .ok (⟨["Conversation", "Message_No_1"],
          [[some (rowConvo ["Message_No_1"] [("Message_No_1", 1)] [some v]), some v]]⟩,
          true) := rfl
    rw [h2, hconv]
  · have hq : cellQualifies ["ChatID", "ActualOrExpected", "Message_No_1"]
        [some "id1", some "Actual", some v] "Message_No_1" = true := by
      have h1 : cellQualifies ["ChatID", "ActualOrExpected", "Message_No_1"]
          [some "id1", some "Actual", some v] "Message_No_1" =
          (if pyStrip v = "" then false else true) := rfl
      rw [h1, if_neg h]
    have heff : effMessage ["ChatID", "ActualOrExpected", "Message_No_1"]
        (sortDesc [("Message_No_1", 1)]) [some "id1", some "Actual", some v] = some v := by
      show effMessage ["ChatID", "ActualOrExpected", "Message_No_1"]
        [("Message_No_1", 1)] [some "id1", some "Actual", some v] = some v
      rw [effMessage, List.find?_cons_of_pos
        (p := fun ck : String × Int => cellQualifies
          ["ChatID", "ActualOrExpected", "Message_No_1"]
          [some "id1", some "Actual", some v] ck.1) _ hq]
      rfl
    have hstep : stepRow
        (["ChatID", "ActualOrExpected", "Message_No_1"].filter
          (fun c => !(c == "ActualOrExpected")))
        ["ChatID", "ActualOrExpected", "Message_No_1"] (sortDesc [("Message_No_1", 1)])
        ⟨[], []⟩ [some "id1", some "Actual", some v] =
        ⟨[(some "id1", [("ChatID", some "id1"), ("Message_No_1", some v)])],
         [(some "id1", ⟨some v, none⟩)]⟩ := by
      rw [stepRow]
      rw [heff]
      rfl
    have h3 : transform_chat_responses ⟨["ChatID", "ActualOrExpected", "Message_No_1"],
        [[some "id1", some "Actual", some v]]⟩ =
        .ok (buildOutput (stepRow
          (["ChatID", "ActualOrExpected", "Message_No_1"].filter
            (fun c => !(c == "ActualOrExpected")))
          ["ChatID", "ActualOrExpected", "Message_No_1"] (sortDesc [("Message_No_1", 1)])
          ⟨[], []⟩ [some "id1", some "Actual", some v])) := rfl
    rw [h3, hstep]
    rfl

theorem untrimmed_values_preserved_witness :
    ¬ pyStrip "  hi  " = "" ∧
    (process_data ⟨["Message_No_1"], [[some "  hi  "]]⟩ =
        .ok (⟨["Conversation", "Message_No_1"],
          [[some ("Bot: " ++ "  hi  "), some "  hi  "]]⟩, true) ∧
      transform_chat_responses ⟨["ChatID", "ActualOrExpected", "Message_No_1"],
          [[some "id1", some "Actual", some "  hi  "]]⟩ =
        .ok ⟨["ChatID", "Message_No_1", "Actual", "Expected"],
          [[some "id1", some "  hi  ", some "  hi  ", none]]⟩) :=
  ⟨by decide, untrimmed_values_preserved "  hi  " (by decide)⟩
